import Mathlib

/-!
A shallow embedding of the class `Vector<T>` of `Vector.h`.

`src/Vector/Vector.h` declares a fixed-size numeric vector: a length `size_`, a heap
array `data` of `size_` cells and a tolerance `epsilon`.  The embedding keeps the
heap array as a list of cells; `std::out_of_range` and `std::invalid_argument`
are values of `Error`, as is a read or write outside the allocation (which C++
leaves undefined), and an operation whose body does not type-check.  A loop `for (i = 0; i < n; i++)` is the recursion `forLoop`
on the number of iterations run, stopping at the first exception.  The scalar
type `T` is an exact ring or field; `std::sqrt` is a parameter of the
operations that call it.
-/

namespace AISD

/-- The ways an operation of `Vector<T>` can fail. -/
inductive Error where
  /-- Thrown by both `operator[]` as `std::out_of_range` (lines 74, 82). -/
  | out_of_range
  /-- Thrown by the size guards as `std::invalid_argument` (lines 90, 102, 115, 146, 185). -/
  | invalid_argument
  /-- An access `data[i]` outside the allocated cells. -/
  | undefined_behavior
  /-- The body of the operation does not type-check, so the compiler rejects
  every program that calls it and no call returns. -/
  | ill_formed
  deriving DecidableEq

/-- The scalar-dependent constant of the class: the member `epsilon` of line 13,
`const T epsilon = 1e-6;`, is the double literal `1e-6` converted to `T`. -/
class Scalar (T : Type) [LinearOrderedRing T] where
  /-- The value of `1e-6` in `T`. -/
  epsilon : T
  /-- The converted literal is not negative. -/
  epsilon_nonneg : 0 ≤ epsilon

/-- For an integer `T` the conversion of `1e-6` truncates to `0`. -/
instance instScalarInt : Scalar ℤ where
  epsilon := 0
  epsilon_nonneg := le_refl 0

/-- For an exact field (rationals, reals) the literal keeps its value. -/
instance instScalarField {T : Type} [LinearOrderedField T] : Scalar T where
  epsilon := 1e-6
  epsilon_nonneg := by norm_num

/-- The members of lines 11-12: `size_` and the array behind `data`, which every
constructor allocates with `new T[size_]`. -/
structure Vector (T : Type) where
  /-- The member `size_`. -/
  size_ : Nat
  /-- The cells behind the pointer `data`. -/
  data : List T
  /-- The allocation holds `size_` cells. -/
  alloc : data.length = size_

namespace Vector

variable {T : Type}

/-- The accessor `size()` of line 35. -/
def size (v : Vector T) : Nat := v.size_

/-- The unchecked read `data[i]`. -/
def rawRead (v : Vector T) (i : Nat) : Except Error T :=
  match v.data[i]? with
  | some x => pure x
  | none => throw Error.undefined_behavior

/-- The unchecked write `data[i] = x`. -/
def rawWrite (v : Vector T) (i : Nat) (x : T) : Except Error (Vector T) :=
  if i < v.size_ then
    pure { size_ := v.size_, data := v.data.set i x, alloc := by simp [v.alloc] }
  else throw Error.undefined_behavior

/-- The read-only `operator[]` of lines 79-85. -/
def operatorIndexConst (v : Vector T) (index : Nat) : Except Error T :=
  if index ≥ v.size_ then throw Error.out_of_range
  else v.rawRead index

/-- The mutable `operator[]` of lines 71-77, its reference used to read. -/
def operatorIndex (v : Vector T) (index : Nat) : Except Error T :=
  if index ≥ v.size_ then throw Error.out_of_range
  else v.rawRead index

/-- The mutable `operator[]` of lines 71-77, its reference used to store:
`v[index] = value`. -/
def assignIndex (v : Vector T) (index : Nat) (value : T) : Except Error (Vector T) :=
  if index ≥ v.size_ then throw Error.out_of_range
  else v.rawWrite index value

/-- A loop `for (std::size_t i = 0; i < n; i++) body`: the state after the first
`n` iterations, none of which runs once an earlier one has thrown. -/
def forLoop {σ : Type} (body : Nat → σ → Except Error σ) (init : σ) : Nat → Except Error σ
  | 0 => pure init
  | n + 1 => forLoop body init n >>= body n

/-- The array of the fill constructor after `n` iterations of lines 48-50: the
cells written so far, iteration `i` storing `value` in cell `i`. -/
def fillCells (value : T) : (n : Nat) → { cells : List T // cells.length = n }
  | 0 => ⟨[], rfl⟩
  | n + 1 => ⟨(fillCells value n).1 ++ [value], by simp [(fillCells value n).2]⟩

/-- The constructor `Vector(std::size_t size, T value)` of lines 45-51. -/
def fill (size : Nat) (value : T) : Vector T where
  size_ := size
  data := (fillCells value size).1
  alloc := (fillCells value size).2

/-- The array of the copy constructor after `n` iterations of lines 63-65,
iteration `i` storing `other[i]` in cell `i`. -/
def copyCells (other : Vector T) :
    (n : Nat) → Except Error { cells : List T // cells.length = n }
  | 0 => pure ⟨[], rfl⟩
  | n + 1 => do
    let cells ← copyCells other n
    let x ← other.operatorIndexConst n
    pure ⟨cells.1 ++ [x], by simp [cells.2]⟩

/-- The copy constructor of lines 59-66. -/
def copy (other : Vector T) : Except Error (Vector T) := do
  let cells ← copyCells other other.size_
  pure { size_ := other.size_, data := cells.1, alloc := cells.2 }

/-- The assignment `operator=` of lines 87-97; the result is the new `*this`. -/
def operatorAssign (a other : Vector T) : Except Error (Vector T) :=
  if a.size_ ≠ other.size_ then throw Error.invalid_argument
  else forLoop (fun i self => do
    let y ← other.operatorIndexConst i
    self.rawWrite i y) a a.size_

/-- The sum `operator+` of lines 99-110. -/
def operatorPlus [Ring T] (a other : Vector T) : Except Error (Vector T) :=
  if a.size_ ≠ other.size_ then throw Error.invalid_argument
  else forLoop (fun i result => do
    let x ← a.rawRead i
    let y ← other.operatorIndexConst i
    result.assignIndex i (x + y)) (fill a.size_ 0) a.size_

/-- The difference `operator-` of lines 112-123. -/
def operatorMinus [Ring T] (a other : Vector T) : Except Error (Vector T) :=
  if a.size_ ≠ other.size_ then throw Error.invalid_argument
  else forLoop (fun i result => do
    let x ← a.rawRead i
    let y ← other.operatorIndexConst i
    result.assignIndex i (x - y)) (fill a.size_ 0) a.size_

/-- The product with a scalar on the right, `operator*(const T&)` of lines 125-132. -/
def operatorMulScalar [Ring T] (a : Vector T) (other : T) : Except Error (Vector T) :=
  forLoop (fun i result => do
    let x ← a.rawRead i
    result.assignIndex i (x * other)) (fill a.size_ 0) a.size_

/-- The friend `operator*(const T& scalar, const Vector<T>& vec)` of line 29. -/
def scalarMulVector [Ring T] (scalar : T) (vec : Vector T) : Except Error (Vector T) :=
  vec.operatorMulScalar scalar

/-- The quotient by a scalar, `operator/` of lines 134-141, with the division of `T`. -/
def operatorDiv [Zero T] [Div T] (a : Vector T) (other : T) : Except Error (Vector T) :=
  forLoop (fun i result => do
    let x ← a.rawRead i
    result.assignIndex i (x / other)) (fill a.size_ 0) a.size_

/-- The dot product `operator*(const Vector<T>&)` of lines 143-154. -/
def operatorMulVector [Ring T] (a other : Vector T) : Except Error T :=
  if a.size_ ≠ other.size_ then throw Error.invalid_argument
  else forLoop (fun i result => do
    let x ← a.rawRead i
    let y ← other.operatorIndexConst i
    pure (result + x * y)) 0 a.size_

/-- The loop of lines 162-167 from index `i` on, with `remaining` iterations
left: it returns `false` at the first pair of cells further apart than
`epsilon`, and `true` when no iteration is left. -/
def eqLoop [LinearOrderedRing T] [Scalar T] (a other : Vector T) :
    (remaining i : Nat) → Except Error Bool
  | 0, _ => pure true
  | remaining + 1, i => do
    let x ← a.rawRead i
    let y ← other.operatorIndexConst i
    if |x - y| > Scalar.epsilon then pure false
    else eqLoop a other remaining (i + 1)

/-- What an operand of the comparison of line 158 denotes: a value of type
`std::size_t`, or a non-static member function that is named without being
called. -/
inductive Operand (T : Type) where
  /-- A value, such as the member `other.size_`. -/
  | value (n : Nat)
  /-- The name of a member function, such as `size` of line 35. -/
  | memberFunction (f : Vector T → Nat)

/-- The built-in `!=` of line 158.  It compares two values; a member function
that is named without being called has no value, and the comparison is
ill-formed. -/
def notEqual : Operand T → Operand T → Except Error Bool
  | Operand.value m, Operand.value n => pure (m != n)
  | _, _ => throw Error.ill_formed

/-- The comparison `operator==` of lines 156-168.  The guard of line 158 is
`size != other.size_`: its left operand is the name `size` of the accessor of
line 35, not the member `size_` that the guards of lines 89, 101, 114, 145 and
184 spell, and not the call `size()`. -/
def operatorEq [LinearOrderedRing T] [Scalar T] (a other : Vector T) : Except Error Bool := do
  let differ ← notEqual (Operand.memberFunction (size : Vector T → Nat))
    (Operand.value other.size_)
  if differ then pure false
  else eqLoop a other a.size_ 0

/-- The comparison `operator!=` of line 33. -/
def operatorNe [LinearOrderedRing T] [Scalar T] (a other : Vector T) : Except Error Bool := do
  let r ← a.operatorEq other
  pure (!r)

/-- The norm `length()` of lines 170-180; `sqrt` stands for `std::sqrt` on `T`. -/
def length [Ring T] (sqrt : T → T) (a : Vector T) : Except Error T := do
  let result ← forLoop (fun i result => do
    let x ← a.rawRead i
    pure (result + x * x)) 0 a.size_
  pure (sqrt result)

/-- The sine `sinOfAngleWith` of lines 182-190; `std::pow(x, 2)` is `x ^ 2`. -/
def sinOfAngleWith [Field T] (sqrt : T → T) (a other : Vector T) : Except Error T :=
  if a.size_ ≠ other.size_ then throw Error.invalid_argument
  else do
    let dot ← a.operatorMulVector other
    let len ← a.length sqrt
    let otherLen ← other.length sqrt
    pure (sqrt (1 - (dot / (len * otherLen)) ^ 2))

/-- The area `areaTriangle` of lines 192-198. -/
def areaTriangle [Field T] (sqrt : T → T) (a other : Vector T) : Except Error T := do
  let sinAngle ← a.sinOfAngleWith sqrt other
  let len ← a.length sqrt
  let otherLen ← other.length sqrt
  pure (0.5 * len * otherLen * sinAngle)

end Vector

/-! ## The same members over a free store

Claims about sharing of storage need the pointer `data` itself.  Here an object
is its two members, `size_` and the address in `data`, and the arrays live in a
store that every operation passes on. -/

/-- The free store: the arrays made by `new T[n]`, addressed in order of
allocation.  A cell holds `none` until a value is first stored in it. -/
abbrev Store (T : Type) := List (List (Option T))

/-- An object of class `Vector<T>`: the member `size_` and the address held by
the member `data` (lines 11-12). -/
structure Object where
  /-- The member `size_`. -/
  size_ : Nat
  /-- The address of the array behind `data`. -/
  data : Nat
  deriving DecidableEq

namespace Store

variable {T : Type}

/-- The expression `new T[n]`: a fresh array of `n` cells without a value, and
its address. -/
def alloc (s : Store T) (n : Nat) : Store T × Nat :=
  (s ++ [List.replicate n none], s.length)

/-- The unchecked read `p[i]` of the array at address `p`. -/
def load (s : Store T) (p i : Nat) : Except Error T :=
  match s[p]? with
  | some block =>
    match block[i]? with
    | some (some x) => pure x
    | _ => throw Error.undefined_behavior
  | none => throw Error.undefined_behavior

/-- The unchecked write `p[i] = x` into the array at address `p`. -/
def store (s : Store T) (p i : Nat) (x : T) : Except Error (Store T) :=
  match s[p]? with
  | some block =>
    if i < block.length then pure (s.set p (block.set i (some x)))
    else throw Error.undefined_behavior
  | none => throw Error.undefined_behavior

end Store

namespace Object

variable {T : Type}

/-- The constructor `Vector(std::size_t size, T value)` of lines 45-51. -/
def ctorFill (s : Store T) (size : Nat) (value : T) : Except Error (Store T × Object) := do
  let (s1, p) := s.alloc size
  let s2 ← Vector.forLoop (fun i st => st.store p i value) s1 size
  pure (s2, { size_ := size, data := p })

/-- The read-only `operator[]` of lines 79-85. -/
def indexConst (s : Store T) (v : Object) (index : Nat) : Except Error T :=
  if index ≥ v.size_ then throw Error.out_of_range
  else s.load v.data index

/-- The mutable `operator[]` of lines 71-77, its reference used to store:
`v[index] = value`. -/
def indexStore (s : Store T) (v : Object) (index : Nat) (value : T) :
    Except Error (Store T) :=
  if index ≥ v.size_ then throw Error.out_of_range
  else s.store v.data index value

/-- The copy constructor of lines 59-66. -/
def ctorCopy (s : Store T) (other : Object) : Except Error (Store T × Object) := do
  let (s1, p) := s.alloc other.size_
  let s2 ← Vector.forLoop (fun i st => do
    let x ← indexConst st other i
    st.store p i x) s1 other.size_
  pure (s2, { size_ := other.size_, data := p })

/-- The assignment `operator=` of lines 87-97 on the object `self`; `other` may
be `self` itself. -/
def assign (s : Store T) (self other : Object) : Except Error (Store T) :=
  if self.size_ ≠ other.size_ then throw Error.invalid_argument
  else Vector.forLoop (fun i st => do
    let y ← indexConst st other i
    st.store self.data i y) s self.size_

end Object

/-! ## Cells and checked access -/

namespace Vector

variable {T : Type}

theorem getElem?_of_lt (v : Vector T) {i : Nat} (h : i < v.size_) :
    ∃ x, v.data[i]? = some x := by
  have hlen : i < v.data.length := by rw [v.alloc]; exact h
  exact ⟨v.data[i], List.getElem?_eq_getElem hlen⟩

theorem getElem?_of_ge (v : Vector T) {i : Nat} (h : v.size_ ≤ i) :
    v.data[i]? = none := by
  apply List.getElem?_eq_none
  rw [v.alloc]; exact h

theorem rawRead_of_some (v : Vector T) {i : Nat} {x : T} (h : v.data[i]? = some x) :
    v.rawRead i = Except.ok x := by
  simp [rawRead, h, pure, Except.pure]

theorem operatorIndexConst_of_some (v : Vector T) {i : Nat} {x : T}
    (h : v.data[i]? = some x) : v.operatorIndexConst i = Except.ok x := by
  have hlt : i < v.size_ := by
    by_contra hge
    rw [getElem?_of_ge v (Nat.le_of_not_lt hge)] at h
    cases h
  simp [operatorIndexConst, Nat.not_le.mpr hlt, rawRead_of_some v h]

theorem operatorIndex_of_some (v : Vector T) {i : Nat} {x : T}
    (h : v.data[i]? = some x) : v.operatorIndex i = Except.ok x := by
  have hlt : i < v.size_ := by
    by_contra hge
    rw [getElem?_of_ge v (Nat.le_of_not_lt hge)] at h
    cases h
  simp [operatorIndex, Nat.not_le.mpr hlt, rawRead_of_some v h]

theorem operatorIndexConst_of_ge (v : Vector T) {i : Nat} (h : v.size_ ≤ i) :
    v.operatorIndexConst i = Except.error Error.out_of_range := by
  simp [operatorIndexConst, h, throw, throwThe, MonadExceptOf.throw]

theorem operatorIndex_of_ge (v : Vector T) {i : Nat} (h : v.size_ ≤ i) :
    v.operatorIndex i = Except.error Error.out_of_range := by
  simp [operatorIndex, h, throw, throwThe, MonadExceptOf.throw]

theorem assignIndex_of_ge (v : Vector T) {i : Nat} (h : v.size_ ≤ i) (x : T) :
    v.assignIndex i x = Except.error Error.out_of_range := by
  simp [assignIndex, h, throw, throwThe, MonadExceptOf.throw]

theorem rawWrite_of_lt (v : Vector T) {i : Nat} (h : i < v.size_) (x : T) :
    ∃ w, v.rawWrite i x = Except.ok w ∧ w.size_ = v.size_ ∧ w.data = v.data.set i x := by
  refine ⟨{ size_ := v.size_, data := v.data.set i x, alloc := by simp [v.alloc] }, ?_, rfl, rfl⟩
  simp [rawWrite, h, pure, Except.pure]

theorem assignIndex_of_lt (v : Vector T) {i : Nat} (h : i < v.size_) (x : T) :
    v.assignIndex i x = v.rawWrite i x := by
  simp [assignIndex, Nat.not_le.mpr h]

theorem fillCells_eq_replicate (value : T) (n : Nat) :
    (fillCells value n).1 = List.replicate n value := by
  induction n with
  | zero => rfl
  | succ n ih =>
    show (fillCells value n).1 ++ [value] = List.replicate (n + 1) value
    rw [ih, List.replicate_succ']

theorem fill_getElem? (size : Nat) (value : T) {i : Nat} (h : i < size) :
    (fill size value).data[i]? = some value := by
  show (fillCells value size).1[i]? = some value
  rw [fillCells_eq_replicate]
  simp [List.getElem?_replicate, h]

/-- A loop whose every iteration keeps an invariant runs to its end without an
exception, and the invariant holds of the final state. -/
theorem forLoop_inv {σ : Type} (body : Nat → σ → Except Error σ) (init : σ)
    (Inv : Nat → σ → Prop) (n : Nat) (h0 : Inv 0 init)
    (hstep : ∀ i, i < n → ∀ s, Inv i s → ∃ s', body i s = Except.ok s' ∧ Inv (i + 1) s') :
    ∃ s, forLoop body init n = Except.ok s ∧ Inv n s := by
  induction n with
  | zero => exact ⟨init, rfl, h0⟩
  | succ k ih =>
    obtain ⟨s, hs, hinv⟩ := ih (fun i hi => hstep i (Nat.lt_succ_of_lt hi))
    obtain ⟨s', hs', hinv'⟩ := hstep k (Nat.lt_succ_self k) s hinv
    refine ⟨s', ?_, hinv'⟩
    show (forLoop body init k >>= body k) = Except.ok s'
    rw [hs]
    exact hs'

/-- A loop that stores, at iteration `i`, the `i`-th cell of `target` in cell `i`
of its state ends with the cells of `target`. -/
theorem storeLoop_spec (n : Nat) (init : Vector T) (hinit : init.size_ = n)
    (target : List T) (htarget : target.length = n)
    (body : Nat → Vector T → Except Error (Vector T))
    (hbody : ∀ i, i < n → ∀ r : Vector T, r.size_ = n →
      ∃ x, target[i]? = some x ∧ body i r = r.rawWrite i x) :
    ∃ r, forLoop body init n = Except.ok r ∧ r.size_ = n ∧ r.data = target := by
  have key : ∀ k, k ≤ n → ∃ r, forLoop body init k = Except.ok r ∧
      (r.size_ = n ∧ ∀ j, j < k → r.data[j]? = target[j]?) := by
    intro k hk
    apply forLoop_inv body init (fun i r => r.size_ = n ∧ ∀ j, j < i → r.data[j]? = target[j]?)
    · exact ⟨hinit, fun j hj => absurd hj (Nat.not_lt_zero j)⟩
    · intro i hi r hr
      obtain ⟨hsize, hcells⟩ := hr
      have hin : i < n := Nat.lt_of_lt_of_le hi hk
      obtain ⟨x, hx, hb⟩ := hbody i hin r hsize
      obtain ⟨w, hw, hwsize, hwdata⟩ := rawWrite_of_lt r (hsize ▸ hin) x
      refine ⟨w, by rw [hb, hw], by rw [hwsize, hsize], ?_⟩
      intro j hj
      rw [hwdata, List.getElem?_set]
      by_cases hij : i = j
      · subst hij
        have hlen : i < r.data.length := by rw [r.alloc, hsize]; exact hin
        simp [hlen, hx]
      · simp only [hij, if_false]
        exact hcells j (by omega)
  obtain ⟨r, hr, hsize, hcells⟩ := key n (Nat.le_refl n)
  refine ⟨r, hr, hsize, ?_⟩
  apply List.ext_getElem?
  intro j
  by_cases hj : j < n
  · exact hcells j hj
  · rw [getElem?_of_ge r (by omega), List.getElem?_eq_none (by omega)]

/-- The elementwise loops of `operator+`, `operator-`: with equal sizes the result
holds `f a[i] b[i]` in every cell. -/
theorem zipLoop_spec [Zero T] (f : T → T → T) (a other : Vector T)
    (hsize : a.size_ = other.size_) :
    ∃ r, forLoop (fun i result => do
        let x ← a.rawRead i
        let y ← other.operatorIndexConst i
        result.assignIndex i (f x y)) (fill a.size_ 0) a.size_ = Except.ok r ∧
      r.size_ = a.size_ ∧ r.data = List.zipWith f a.data other.data := by
  apply storeLoop_spec a.size_ (fill a.size_ 0) rfl
  · simp [a.alloc, other.alloc, hsize]
  · intro i hi r hr
    obtain ⟨x, hx⟩ := getElem?_of_lt a hi
    obtain ⟨y, hy⟩ := getElem?_of_lt other (hsize ▸ hi)
    refine ⟨f x y, by simp [List.getElem?_zipWith, hx, hy], ?_⟩
    rw [rawRead_of_some a hx, operatorIndexConst_of_some other hy]
    exact assignIndex_of_lt r (hr ▸ hi) (f x y)

/-- The elementwise loops of `operator*(const T&)` and `operator/`: the result
holds `f a[i]` in every cell. -/
theorem mapLoop_spec [Zero T] (f : T → T) (a : Vector T) :
    ∃ r, forLoop (fun i result => do
        let x ← a.rawRead i
        result.assignIndex i (f x)) (fill a.size_ 0) a.size_ = Except.ok r ∧
      r.size_ = a.size_ ∧ r.data = List.map f a.data := by
  apply storeLoop_spec a.size_ (fill a.size_ 0) rfl
  · simp [a.alloc]
  · intro i hi r hr
    obtain ⟨x, hx⟩ := getElem?_of_lt a hi
    refine ⟨f x, by simp [List.getElem?_map, hx], ?_⟩
    rw [rawRead_of_some a hx]
    exact assignIndex_of_lt r (hr ▸ hi) (f x)

theorem operatorPlus_spec [Ring T] (a other : Vector T) (hsize : a.size_ = other.size_) :
    ∃ r, a.operatorPlus other = Except.ok r ∧ r.size_ = a.size_ ∧
      r.data = List.zipWith (fun x y => x + y) a.data other.data := by
  obtain ⟨r, hr, h⟩ := zipLoop_spec (fun x y => x + y) a other hsize
  exact ⟨r, by simp only [operatorPlus, hsize, ne_eq, not_true_eq_false, if_false]; rw [← hsize]; exact hr, h⟩

theorem operatorMinus_spec [Ring T] (a other : Vector T) (hsize : a.size_ = other.size_) :
    ∃ r, a.operatorMinus other = Except.ok r ∧ r.size_ = a.size_ ∧
      r.data = List.zipWith (fun x y => x - y) a.data other.data := by
  obtain ⟨r, hr, h⟩ := zipLoop_spec (fun x y => x - y) a other hsize
  exact ⟨r, by simp only [operatorMinus, hsize, ne_eq, not_true_eq_false, if_false]; rw [← hsize]; exact hr, h⟩

theorem operatorMulScalar_spec [Ring T] (a : Vector T) (k : T) :
    ∃ r, a.operatorMulScalar k = Except.ok r ∧ r.size_ = a.size_ ∧
      r.data = List.map (fun x => x * k) a.data :=
  mapLoop_spec (fun x => x * k) a

theorem operatorAssign_spec (a other : Vector T) (hsize : a.size_ = other.size_) :
    ∃ r, a.operatorAssign other = Except.ok r ∧ r.size_ = a.size_ ∧ r.data = other.data := by
  obtain ⟨r, hr, h⟩ := storeLoop_spec a.size_ a rfl other.data (by rw [other.alloc, hsize])
    (fun i self => do
      let y ← other.operatorIndexConst i
      self.rawWrite i y)
    (by
      intro i hi r _
      obtain ⟨y, hy⟩ := getElem?_of_lt other (hsize ▸ hi)
      exact ⟨y, hy, by beta_reduce; rw [operatorIndexConst_of_some other hy]; rfl⟩)
  exact ⟨r, by simp only [operatorAssign, hsize, ne_eq, not_true_eq_false, if_false]; rw [← hsize]; exact hr, h⟩

/-- An accumulating loop `result += term i` over the cells of `terms` ends with
their sum. -/
theorem sumLoop_spec [Ring T] (terms : List T) (body : Nat → T → Except Error T)
    (hbody : ∀ i, i < terms.length → ∀ acc : T,
      ∃ x, terms[i]? = some x ∧ body i acc = Except.ok (acc + x)) :
    forLoop body 0 terms.length = Except.ok terms.sum := by
  have key : ∀ k, k ≤ terms.length →
      ∃ s, forLoop body 0 k = Except.ok s ∧ s = (terms.take k).sum := by
    intro k hk
    apply forLoop_inv body 0 (fun i s => s = (terms.take i).sum)
    · simp
    · intro i hi acc hacc
      have hlt : i < terms.length := Nat.lt_of_lt_of_le hi hk
      obtain ⟨x, hx, hb⟩ := hbody i hlt acc
      refine ⟨acc + x, hb, ?_⟩
      rw [List.sum_take_succ terms i hlt, hacc]
      rw [List.getElem?_eq_getElem hlt] at hx
      rw [Option.some.inj hx]
  obtain ⟨s, hs, hsum⟩ := key terms.length (Nat.le_refl _)
  rw [hs, hsum, List.take_length]

theorem operatorMulVector_spec [Ring T] (a other : Vector T) (hsize : a.size_ = other.size_) :
    a.operatorMulVector other =
      Except.ok (List.zipWith (fun x y => x * y) a.data other.data).sum := by
  have hlen : (List.zipWith (fun x y => x * y) a.data other.data).length = a.size_ := by
    simp [a.alloc, other.alloc, hsize]
  have h := sumLoop_spec (List.zipWith (fun x y => x * y) a.data other.data)
    (fun i result => do
      let x ← a.rawRead i
      let y ← other.operatorIndexConst i
      pure (result + x * y))
    (by
      intro i hi acc
      rw [hlen] at hi
      obtain ⟨x, hx⟩ := getElem?_of_lt a hi
      obtain ⟨y, hy⟩ := getElem?_of_lt other (hsize ▸ hi)
      refine ⟨x * y, by simp [List.getElem?_zipWith, hx, hy], ?_⟩
      beta_reduce
      rw [rawRead_of_some a hx, operatorIndexConst_of_some other hy]
      rfl)
  rw [hlen] at h
  simp only [operatorMulVector, hsize, ne_eq, not_true_eq_false, if_false]
  rw [← hsize]
  exact h

theorem length_spec [Ring T] (sqrt : T → T) (a : Vector T) :
    a.length sqrt = Except.ok (sqrt (List.map (fun x => x * x) a.data).sum) := by
  have hlen : (List.map (fun x => x * x) a.data).length = a.size_ := by
    simp [a.alloc]
  have h := sumLoop_spec (List.map (fun x => x * x) a.data)
    (fun i result => do
      let x ← a.rawRead i
      pure (result + x * x))
    (by
      intro i hi acc
      rw [hlen] at hi
      obtain ⟨x, hx⟩ := getElem?_of_lt a hi
      refine ⟨x * x, by simp [List.getElem?_map, hx], ?_⟩
      beta_reduce
      rw [rawRead_of_some a hx]
      rfl)
  rw [hlen] at h
  unfold length
  rw [h]
  rfl

theorem sinOfAngleWith_spec [Field T] (sqrt : T → T) (a other : Vector T)
    (hsize : a.size_ = other.size_) :
    a.sinOfAngleWith sqrt other = Except.ok
      (sqrt (1 - ((List.zipWith (fun x y => x * y) a.data other.data).sum /
        (sqrt (List.map (fun x => x * x) a.data).sum *
          sqrt (List.map (fun x => x * x) other.data).sum)) ^ 2)) := by
  unfold sinOfAngleWith
  rw [operatorMulVector_spec a other hsize, length_spec, length_spec]
  simp only [hsize, ne_eq, not_true_eq_false, if_false]
  rfl

theorem areaTriangle_spec [Field T] (sqrt : T → T) (a other : Vector T)
    (hsize : a.size_ = other.size_) :
    a.areaTriangle sqrt other = Except.ok
      (0.5 * sqrt (List.map (fun x => x * x) a.data).sum *
        sqrt (List.map (fun x => x * x) other.data).sum *
        sqrt (1 - ((List.zipWith (fun x y => x * y) a.data other.data).sum /
          (sqrt (List.map (fun x => x * x) a.data).sum *
            sqrt (List.map (fun x => x * x) other.data).sum)) ^ 2)) := by
  unfold areaTriangle
  rw [sinOfAngleWith_spec sqrt a other hsize, length_spec, length_spec]
  rfl

/-- The comparison loop over cells `i`, ..., `n - 1` of two vectors of size `n`
returns whether every pair of cells is within `epsilon`. -/
theorem eqLoop_spec [LinearOrderedRing T] [Scalar T] (a other : Vector T)
    (hsize : a.size_ = other.size_) (remaining i : Nat) (hi : i + remaining = a.size_) :
    ∃ r, eqLoop a other remaining i = Except.ok r ∧
      (r = true ↔ ∀ j, i ≤ j → j < a.size_ →
        ∃ x y, a.data[j]? = some x ∧ other.data[j]? = some y ∧
          |x - y| ≤ Scalar.epsilon) := by
  induction remaining generalizing i with
  | zero =>
    refine ⟨true, rfl, ?_⟩
    simp only [true_iff]
    intro j h1 h2
    omega
  | succ k ih =>
    have hlt : i < a.size_ := by omega
    obtain ⟨x, hx⟩ := getElem?_of_lt a hlt
    obtain ⟨y, hy⟩ := getElem?_of_lt other (hsize ▸ hlt)
    obtain ⟨r, hr, hiff⟩ := ih (i + 1) (by omega)
    have hunfold : eqLoop a other (k + 1) i =
        if |x - y| > Scalar.epsilon then Except.ok false
        else eqLoop a other k (i + 1) := by
      show (a.rawRead i >>= fun x => other.operatorIndexConst i >>= fun y =>
        if |x - y| > Scalar.epsilon then pure false
        else eqLoop a other k (i + 1)) = _
      rw [rawRead_of_some a hx, operatorIndexConst_of_some other hy]
      rfl
    by_cases hgt : |x - y| > Scalar.epsilon
    · refine ⟨false, by rw [hunfold, if_pos hgt], ?_⟩
      constructor
      · intro h; cases h
      · intro h
        obtain ⟨x', y', hx', hy', hle⟩ := h i (Nat.le_refl i) hlt
        rw [hx] at hx'; rw [hy] at hy'
        cases hx'; cases hy'
        exact absurd hgt (not_lt.mpr hle)
    · refine ⟨r, by rw [hunfold, if_neg hgt]; exact hr, ?_⟩
      rw [hiff]
      constructor
      · intro h j h1 h2
        by_cases hij : j = i
        · subst hij
          exact ⟨x, y, hx, hy, not_lt.mp hgt⟩
        · exact h j (by omega) h2
      · intro h j h1 h2
        exact h j (by omega) h2

/-- The comparison of line 158 has no value, so `operator==` returns for no pair
of vectors. -/
theorem operatorEq_ill_formed [LinearOrderedRing T] [Scalar T] (a other : Vector T) :
    a.operatorEq other = Except.error Error.ill_formed := rfl

/-- The sum `a + b` less `b` has the cells of `a`. -/
theorem add_sub_cells [Ring T] (a b : Vector T) (h : a.size_ = b.size_) :
    ∃ s d, a.operatorPlus b = Except.ok s ∧ s.operatorMinus b = Except.ok d ∧
      d.size_ = a.size_ ∧ d.data = a.data := by
  obtain ⟨s, hs, hssize, hsdata⟩ := operatorPlus_spec a b h
  obtain ⟨d, hd, hdsize, hddata⟩ := operatorMinus_spec s b (hssize.trans h)
  refine ⟨s, d, hs, hd, hdsize.trans hssize, ?_⟩
  apply List.ext_getElem?
  intro j
  by_cases hj : j < a.size_
  · obtain ⟨x, hx⟩ := getElem?_of_lt a hj
    obtain ⟨y, hy⟩ := getElem?_of_lt b (h ▸ hj)
    simp [hddata, hsdata, List.getElem?_zipWith, hx, hy]
  · rw [getElem?_of_ge d (by rw [hdsize, hssize]; omega), getElem?_of_ge a (by omega)]

end Vector

/-! ## The claims -/

namespace Vector

variable {T : Type}

/-- Claim C1, where the code departs from it: for vectors of sizes 1 and 2 the
claim has `operator==` return `false`, but in either order the comparison of
line 158 is ill-formed and `operator==` returns nothing. -/
theorem equals_size_mismatch_no_value :
    (fill 1 (0 : ℚ)).size_ ≠ (fill 2 (0 : ℚ)).size_ ∧
      (fill 1 (0 : ℚ)).operatorEq (fill 2 0) = Except.error Error.ill_formed ∧
      (fill 2 (0 : ℚ)).operatorEq (fill 1 0) = Except.error Error.ill_formed :=
  ⟨by decide, operatorEq_ill_formed _ _, operatorEq_ill_formed _ _⟩

/-- Claim C2: the read-only and the mutable `operator[]` throw `out_of_range`
exactly when `index >= size_`, and otherwise read, or store into, the cell at
`index`; in particular index `size_` is out of range for every vector. -/
theorem index_out_of_range_iff (v : Vector T) (index : Nat) :
    (v.operatorIndexConst index = Except.error Error.out_of_range ↔ index ≥ v.size_) ∧
    (v.operatorIndex index = Except.error Error.out_of_range ↔ index ≥ v.size_) ∧
    (∀ value, v.assignIndex index value = Except.error Error.out_of_range ↔
      index ≥ v.size_) ∧
    (index < v.size_ → ∃ x, v.data[index]? = some x ∧
      v.operatorIndexConst index = Except.ok x ∧ v.operatorIndex index = Except.ok x ∧
      ∀ value, ∃ w, v.assignIndex index value = Except.ok w ∧ w.size_ = v.size_ ∧
        w.data = v.data.set index value) ∧
    v.operatorIndexConst v.size_ = Except.error Error.out_of_range ∧
    v.operatorIndex v.size_ = Except.error Error.out_of_range := by
  have hok : index < v.size_ → ∃ x, v.data[index]? = some x ∧
      v.operatorIndexConst index = Except.ok x ∧ v.operatorIndex index = Except.ok x ∧
      ∀ value, ∃ w, v.assignIndex index value = Except.ok w ∧ w.size_ = v.size_ ∧
        w.data = v.data.set index value := by
    intro hlt
    obtain ⟨x, hx⟩ := getElem?_of_lt v hlt
    refine ⟨x, hx, operatorIndexConst_of_some v hx, operatorIndex_of_some v hx, ?_⟩
    intro value
    obtain ⟨w, hw, hsize, hdata⟩ := rawWrite_of_lt v hlt value
    exact ⟨w, by rw [assignIndex_of_lt v hlt, hw], hsize, hdata⟩
  refine ⟨⟨?_, operatorIndexConst_of_ge v⟩, ⟨?_, operatorIndex_of_ge v⟩,
    fun value => ⟨?_, fun h => assignIndex_of_ge v h value⟩, hok,
    operatorIndexConst_of_ge v (Nat.le_refl _), operatorIndex_of_ge v (Nat.le_refl _)⟩
  · intro h
    by_contra hlt
    obtain ⟨x, _, hx, _⟩ := hok (Nat.lt_of_not_le hlt)
    rw [hx] at h
    cases h
  · intro h
    by_contra hlt
    obtain ⟨x, _, _, hx, _⟩ := hok (Nat.lt_of_not_le hlt)
    rw [hx] at h
    cases h
  · intro h
    by_contra hlt
    obtain ⟨x, _, _, _, hx⟩ := hok (Nat.lt_of_not_le hlt)
    obtain ⟨w, hw, _⟩ := hx value
    rw [hw] at h
    cases h

theorem index_out_of_range_iff_witness :
    1 < (fill 2 (5 : ℤ)).size_ ∧
      ∃ x, (fill 2 (5 : ℤ)).data[1]? = some x ∧
        (fill 2 (5 : ℤ)).operatorIndexConst 1 = Except.ok x ∧
        (fill 2 (5 : ℤ)).operatorIndex 1 = Except.ok x ∧
        ∀ value, ∃ w, (fill 2 (5 : ℤ)).assignIndex 1 value = Except.ok w ∧
          w.size_ = (fill 2 (5 : ℤ)).size_ ∧
          w.data = (fill 2 (5 : ℤ)).data.set 1 value :=
  ⟨by decide, (index_out_of_range_iff (fill 2 (5 : ℤ)) 1).2.2.2.1 (by decide)⟩

/-- Claim C3: assignment, sum, difference, dot product, `sinOfAngleWith` and
`areaTriangle` throw `invalid_argument` when the two sizes differ, and with equal
sizes they return a result, so throw nothing. -/
theorem size_guard {R F : Type} [Ring R] [Field F] (sqrt : F → F)
    (a b : Vector R) (c d : Vector F) :
    (a.size_ ≠ b.size_ →
      a.operatorAssign b = Except.error Error.invalid_argument ∧
      a.operatorPlus b = Except.error Error.invalid_argument ∧
      a.operatorMinus b = Except.error Error.invalid_argument ∧
      a.operatorMulVector b = Except.error Error.invalid_argument) ∧
    (c.size_ ≠ d.size_ →
      c.sinOfAngleWith sqrt d = Except.error Error.invalid_argument ∧
      c.areaTriangle sqrt d = Except.error Error.invalid_argument) ∧
    (a.size_ = b.size_ →
      (∃ r, a.operatorAssign b = Except.ok r) ∧ (∃ r, a.operatorPlus b = Except.ok r) ∧
      (∃ r, a.operatorMinus b = Except.ok r) ∧
      (∃ r, a.operatorMulVector b = Except.ok r)) ∧
    (c.size_ = d.size_ →
      (∃ r, c.sinOfAngleWith sqrt d = Except.ok r) ∧
      (∃ r, c.areaTriangle sqrt d = Except.ok r)) := by
  refine ⟨?_, ?_, ?_, ?_⟩
  · intro h
    refine ⟨?_, ?_, ?_, ?_⟩
    · simp only [operatorAssign, ne_eq, h, not_false_eq_true, if_true]; rfl
    · simp only [operatorPlus, ne_eq, h, not_false_eq_true, if_true]; rfl
    · simp only [operatorMinus, ne_eq, h, not_false_eq_true, if_true]; rfl
    · simp only [operatorMulVector, ne_eq, h, not_false_eq_true, if_true]; rfl
  · intro h
    have hsin : c.sinOfAngleWith sqrt d = Except.error Error.invalid_argument := by
      simp only [sinOfAngleWith, ne_eq, h, not_false_eq_true, if_true]; rfl
    refine ⟨hsin, ?_⟩
    unfold areaTriangle
    rw [hsin]
    rfl
  · intro h
    obtain ⟨r1, h1, _⟩ := operatorAssign_spec a b h
    obtain ⟨r2, h2, _⟩ := operatorPlus_spec a b h
    obtain ⟨r3, h3, _⟩ := operatorMinus_spec a b h
    exact ⟨⟨r1, h1⟩, ⟨r2, h2⟩, ⟨r3, h3⟩, ⟨_, operatorMulVector_spec a b h⟩⟩
  · intro h
    exact ⟨⟨_, sinOfAngleWith_spec sqrt c d h⟩, ⟨_, areaTriangle_spec sqrt c d h⟩⟩

theorem size_guard_witness :
    ((fill 1 (0 : ℤ)).size_ ≠ (fill 2 (0 : ℤ)).size_ ∧
      (fill 1 (0 : ℤ)).operatorAssign (fill 2 0) = Except.error Error.invalid_argument ∧
      (fill 1 (0 : ℤ)).operatorPlus (fill 2 0) = Except.error Error.invalid_argument ∧
      (fill 1 (0 : ℤ)).operatorMinus (fill 2 0) = Except.error Error.invalid_argument ∧
      (fill 1 (0 : ℤ)).operatorMulVector (fill 2 0) =
        Except.error Error.invalid_argument) ∧
    ((fill 1 (0 : ℚ)).size_ ≠ (fill 2 (0 : ℚ)).size_ ∧
      (fill 1 (0 : ℚ)).sinOfAngleWith (fun x => x) (fill 2 0) =
        Except.error Error.invalid_argument ∧
      (fill 1 (0 : ℚ)).areaTriangle (fun x => x) (fill 2 0) =
        Except.error Error.invalid_argument) ∧
    ((fill 2 (1 : ℤ)).size_ = (fill 2 (3 : ℤ)).size_ ∧
      (∃ r, (fill 2 (1 : ℤ)).operatorAssign (fill 2 3) = Except.ok r) ∧
      (∃ r, (fill 2 (1 : ℤ)).operatorPlus (fill 2 3) = Except.ok r) ∧
      (∃ r, (fill 2 (1 : ℤ)).operatorMinus (fill 2 3) = Except.ok r) ∧
      (∃ r, (fill 2 (1 : ℤ)).operatorMulVector (fill 2 3) = Except.ok r)) ∧
    ((fill 2 (1 : ℚ)).size_ = (fill 2 (3 : ℚ)).size_ ∧
      (∃ r, (fill 2 (1 : ℚ)).sinOfAngleWith (fun x => x) (fill 2 3) = Except.ok r) ∧
      (∃ r, (fill 2 (1 : ℚ)).areaTriangle (fun x => x) (fill 2 3) = Except.ok r)) :=
  ⟨⟨by decide,
      (size_guard (fun x : ℚ => x) (fill 1 (0 : ℤ)) (fill 2 0) (fill 1 0) (fill 2 0)).1
        (by decide)⟩,
    ⟨by decide,
      (size_guard (fun x : ℚ => x) (fill 1 (0 : ℤ)) (fill 2 0) (fill 1 0) (fill 2 0)).2.1
        (by decide)⟩,
    ⟨rfl,
      (size_guard (fun x : ℚ => x) (fill 2 (1 : ℤ)) (fill 2 3) (fill 2 1) (fill 2 3)).2.2.1
        rfl⟩,
    ⟨rfl,
      (size_guard (fun x : ℚ => x) (fill 2 (1 : ℤ)) (fill 2 3) (fill 2 1) (fill 2 3)).2.2.2
        rfl⟩⟩

/-- Claim C4: the fill constructor `Vector(size, value)` makes a vector of size
`size` in which reading any index below `size` succeeds and gives `value`. -/
theorem fill_reads_value (size : Nat) (value : T) :
    (fill size value).size = size ∧
    ∀ i, i < size → (fill size value).operatorIndexConst i = Except.ok value ∧
      (fill size value).operatorIndex i = Except.ok value := by
  refine ⟨rfl, ?_⟩
  intro i hi
  have h := fill_getElem? size value hi
  exact ⟨operatorIndexConst_of_some _ h, operatorIndex_of_some _ h⟩

theorem fill_reads_value_witness :
    (2 : Nat) < 3 ∧ (fill 3 (7 : ℤ)).operatorIndexConst 2 = Except.ok 7 ∧
      (fill 3 (7 : ℤ)).operatorIndex 2 = Except.ok 7 :=
  ⟨by decide, (fill_reads_value 3 (7 : ℤ)).2 2 (by decide)⟩

/-- Claim C5, where the code departs from it: for `a = Vector(2, 1)` and
`b = Vector(2, 3)` the sum `a + b` and the difference `(a + b) - b` succeed and the
difference has the cells of `a`, but comparing it with `a` returns nothing where
the claim has `true`. -/
theorem add_sub_equals_no_value :
    ∃ s d, (fill 2 (1 : ℚ)).operatorPlus (fill 2 3) = Except.ok s ∧
      s.operatorMinus (fill 2 3) = Except.ok d ∧
      d.size_ = (fill 2 (1 : ℚ)).size_ ∧ d.data = (fill 2 (1 : ℚ)).data ∧
      d.operatorEq (fill 2 1) = Except.error Error.ill_formed := by
  obtain ⟨s, d, hs, hd, hsize, hdata⟩ := add_sub_cells (fill 2 (1 : ℚ)) (fill 2 3) rfl
  exact ⟨s, d, hs, hd, hsize, hdata, operatorEq_ill_formed _ _⟩

/-- Claim C6: for `a` and `b` of equal size over a commutative ring, `a * b` and
`b * a` return the same dot product. -/
theorem dot_comm [CommRing T] (a b : Vector T) (h : a.size_ = b.size_) :
    ∃ r, a.operatorMulVector b = Except.ok r ∧ b.operatorMulVector a = Except.ok r := by
  refine ⟨_, operatorMulVector_spec a b h, ?_⟩
  rw [operatorMulVector_spec b a h.symm, List.zipWith_comm]
  simp only [mul_comm]

theorem dot_comm_witness :
    (fill 2 (2 : ℤ)).size_ = (fill 2 (3 : ℤ)).size_ ∧
      ∃ r, (fill 2 (2 : ℤ)).operatorMulVector (fill 2 3) = Except.ok r ∧
        (fill 2 (3 : ℤ)).operatorMulVector (fill 2 2) = Except.ok r :=
  ⟨rfl, dot_comm (fill 2 2) (fill 2 3) rfl⟩

/-- Claim C7: the scalar-on-the-left product `k * a` is the same vector as the
vector-on-the-left product `a * k`: both succeed, with the size of `a` and the
same element at every index. -/
theorem scalar_mul_symm [Ring T] (k : T) (a : Vector T) :
    scalarMulVector k a = a.operatorMulScalar k ∧
    ∃ l r, scalarMulVector k a = Except.ok l ∧ a.operatorMulScalar k = Except.ok r ∧
      l.size_ = a.size_ ∧ r.size_ = a.size_ ∧
      ∀ i, l.operatorIndexConst i = r.operatorIndexConst i := by
  obtain ⟨r, hr, hsize, _⟩ := operatorMulScalar_spec a k
  exact ⟨rfl, r, r, hr, hr, hsize, hsize, fun _ => rfl⟩

/-- Claim C8, where the code departs from it: `Vector(2, 1)` and `Vector(2, 1)`
have equal sizes and every pair of elements within `1e-6`, so the claim has
`operator==` return `true`, but it returns nothing. -/
theorem equals_within_epsilon_no_value :
    (fill 2 (1 : ℚ)).size_ = (fill 2 (1 : ℚ)).size_ ∧
      (∀ i, i < (fill 2 (1 : ℚ)).size_ →
        ∃ x y, (fill 2 (1 : ℚ)).operatorIndexConst i = Except.ok x ∧
          (fill 2 (1 : ℚ)).operatorIndexConst i = Except.ok y ∧ |x - y| ≤ 1e-6) ∧
      (fill 2 (1 : ℚ)).operatorEq (fill 2 1) = Except.error Error.ill_formed := by
  refine ⟨rfl, ?_, operatorEq_ill_formed _ _⟩
  intro i hi
  have h := operatorIndexConst_of_some _ (fill_getElem? 2 (1 : ℚ) hi)
  exact ⟨1, 1, h, h, by norm_num⟩

/-- Claim C9, where the code departs from it: the claim has every vector compare
equal to itself, but for `Vector(2, 1)` and for the empty vector `operator==`
returns nothing. -/
theorem equals_self_no_value :
    (fill 2 (1 : ℚ)).operatorEq (fill 2 1) = Except.error Error.ill_formed ∧
      (fill 0 (1 : ℚ)).operatorEq (fill 0 1) = Except.error Error.ill_formed :=
  ⟨operatorEq_ill_formed _ _, operatorEq_ill_formed _ _⟩

/-- Claim C10: over the reals, with `v1 = Vector(2, 1.0)`, `v2 = Vector(2, 1.0)` and
then `v1[1] = 0`, the norm of `v1` is `1`, the norm of `v2` is `sqrt 2`, the dot
product of `v1` and `v2` is `1`, and `v1.areaTriangle(v2)` is `0.5`. -/
theorem demo_scenario :
    ∃ v1 : Vector ℝ, (fill 2 (1 : ℝ)).assignIndex 1 0 = Except.ok v1 ∧
      v1.length Real.sqrt = Except.ok 1 ∧
      (fill 2 (1 : ℝ)).length Real.sqrt = Except.ok (Real.sqrt 2) ∧
      v1.operatorMulVector (fill 2 1) = Except.ok 1 ∧
      v1.areaTriangle Real.sqrt (fill 2 1) = Except.ok 0.5 := by
  have hv2 : (fill 2 (1 : ℝ)).data = [1, 1] := fillCells_eq_replicate (1 : ℝ) 2
  obtain ⟨v1, hassign, hsize, hdata⟩ :=
    rawWrite_of_lt (fill 2 (1 : ℝ)) (show 1 < (fill 2 (1 : ℝ)).size_ by decide) 0
  have hv1 : v1.data = [1, 0] := by rw [hdata, hv2]; rfl
  have hsq2 : Real.sqrt 2 * Real.sqrt 2 = 2 := Real.mul_self_sqrt (by norm_num)
  have hpos : (0 : ℝ) < Real.sqrt 2 := Real.sqrt_pos.mpr (by norm_num)
  refine ⟨v1, ?_, ?_, ?_, ?_, ?_⟩
  · rw [assignIndex_of_lt _ (show 1 < (fill 2 (1 : ℝ)).size_ by decide)]
    exact hassign
  · rw [length_spec, hv1]
    simp
  · rw [length_spec, hv2]
    norm_num
  · rw [operatorMulVector_spec v1 (fill 2 1) hsize, hv1, hv2]
    simp
  · rw [areaTriangle_spec Real.sqrt v1 (fill 2 1) hsize, hv1, hv2]
    have hsum1 : (List.map (fun x : ℝ => x * x) [1, 0]).sum = 1 := by simp
    have hsum2 : (List.map (fun x : ℝ => x * x) [1, 1]).sum = 2 := by norm_num
    have hdot : (List.zipWith (fun x y : ℝ => x * y) [1, 0] [1, 1]).sum = 1 := by simp
    rw [hsum1, hsum2, hdot, Real.sqrt_one]
    have hrad : (1 : ℝ) - (1 / (1 * Real.sqrt 2)) ^ 2 = 1 / 2 := by
      field_simp
      nlinarith [hsq2]
    rw [hrad]
    have hprod : Real.sqrt 2 * Real.sqrt (1 / 2) = 1 := by
      rw [← Real.sqrt_mul (by norm_num : (0 : ℝ) ≤ 2)]
      norm_num
    have : (0.5 : ℝ) * 1 * Real.sqrt 2 * Real.sqrt (1 / 2) =
        0.5 * (Real.sqrt 2 * Real.sqrt (1 / 2)) := by ring
    rw [this, hprod]
    norm_num

end Vector

/-! ## Arrays in the free store -/

namespace Store

variable {T : Type}

theorem lt_length_of_getElem? {α : Type} {l : List α} {p : Nat} {b : α}
    (h : l[p]? = some b) : p < l.length := by
  obtain ⟨hlt, _⟩ := List.getElem?_eq_some.mp h
  exact hlt

theorem load_of_some (s : Store T) {p i : Nat} {block : List (Option T)} {x : T}
    (hb : s[p]? = some block) (hx : block[i]? = some (some x)) :
    s.load p i = Except.ok x := by
  simp [load, hb, hx, pure, Except.pure]

theorem store_of_lt (s : Store T) {p i : Nat} {block : List (Option T)}
    (hb : s[p]? = some block) (hi : i < block.length) (x : T) :
    s.store p i x = Except.ok (s.set p (block.set i (some x))) := by
  simp [store, hb, hi, pure, Except.pure]

/-- A loop that stores, at iteration `i`, the `i`-th cell of `target` in cell `i`
of the array at `p` leaves that array holding `target`, and every other array as
it was. -/
theorem heapLoop_spec (s0 : Store T) (p n : Nat) (block0 : List (Option T))
    (h0 : s0[p]? = some block0) (hlen0 : block0.length = n)
    (target : List T) (htarget : target.length = n)
    (body : Nat → Store T → Except Error (Store T))
    (hbody : ∀ i, i < n → ∀ (st : Store T) (blk : List (Option T)),
      (∀ q, q ≠ p → st[q]? = s0[q]?) → st[p]? = some blk →
      (∀ j, i ≤ j → blk[j]? = block0[j]?) →
      ∃ x, target[i]? = some x ∧ body i st = st.store p i x) :
    ∃ st, Vector.forLoop body s0 n = Except.ok st ∧ st.length = s0.length ∧
      (∀ q, q ≠ p → st[q]? = s0[q]?) ∧ st[p]? = some (target.map some) := by
  have key : ∀ k, k ≤ n → ∃ st, Vector.forLoop body s0 k = Except.ok st ∧
      (st.length = s0.length ∧ (∀ q, q ≠ p → st[q]? = s0[q]?) ∧
        ∃ blk, st[p]? = some blk ∧ blk.length = n ∧
          (∀ j, j < k → blk[j]? = Option.map some target[j]?) ∧
          (∀ j, k ≤ j → blk[j]? = block0[j]?)) := by
    intro k hk
    apply Vector.forLoop_inv body s0 (fun k st =>
      st.length = s0.length ∧ (∀ q, q ≠ p → st[q]? = s0[q]?) ∧
        ∃ blk, st[p]? = some blk ∧ blk.length = n ∧
          (∀ j, j < k → blk[j]? = Option.map some target[j]?) ∧
          (∀ j, k ≤ j → blk[j]? = block0[j]?))
    · exact ⟨rfl, fun _ _ => rfl, block0, h0, hlen0,
        fun j hj => absurd hj (Nat.not_lt_zero j), fun _ _ => rfl⟩
    · intro i hi st hinv
      obtain ⟨hlen, hframe, blk, hblk, hblen, hdone, hrest⟩ := hinv
      have hin : i < n := Nat.lt_of_lt_of_le hi hk
      obtain ⟨x, hx, hb⟩ := hbody i hin st blk hframe hblk hrest
      have hpl : p < st.length := lt_length_of_getElem? hblk
      refine ⟨st.set p (blk.set i (some x)), ?_, ?_, ?_, blk.set i (some x), ?_, ?_, ?_, ?_⟩
      · rw [hb]
        exact store_of_lt st hblk (hblen ▸ hin) x
      · rw [List.length_set, hlen]
      · intro q hq
        rw [List.getElem?_set_ne (Ne.symm hq)]
        exact hframe q hq
      · exact List.getElem?_set_self hpl
      · rw [List.length_set, hblen]
      · intro j hj
        by_cases hij : i = j
        · subst hij
          rw [List.getElem?_set_self (hblen ▸ hin), hx]
          rfl
        · rw [List.getElem?_set_ne hij]
          exact hdone j (by omega)
      · intro j hj
        rw [List.getElem?_set_ne (by omega)]
        exact hrest j (by omega)
  obtain ⟨st, hst, hlen, hframe, blk, hblk, hblen, hdone, _⟩ := key n (Nat.le_refl n)
  refine ⟨st, hst, hlen, hframe, ?_⟩
  rw [hblk]
  congr 1
  apply List.ext_getElem?
  intro j
  by_cases hj : j < n
  · rw [hdone j hj, List.getElem?_map]
  · rw [List.getElem?_eq_none (by omega), List.getElem?_eq_none (by simp; omega)]

end Store

namespace Object

variable {T : Type}

theorem alloc_getElem?_ne (s : Store T) (n q : Nat) (hq : q ≠ s.length) :
    (s ++ [List.replicate n (none : Option T)])[q]? = s[q]? := by
  by_cases hlt : q < s.length
  · exact List.getElem?_append_left hlt
  · rw [List.getElem?_eq_none (by simp; omega), List.getElem?_eq_none (by omega)]

/-- Reading through `operator[]` an object whose array holds `cells`. -/
theorem indexConst_of_cells (s : Store T) (v : Object) (cells : List T)
    (hv : s[v.data]? = some (cells.map some)) (hlen : cells.length = v.size_) (i : Nat) :
    indexConst s v i =
      match cells[i]? with
      | some x => Except.ok x
      | none => Except.error Error.out_of_range := by
  by_cases hi : i < v.size_
  · have hc : cells[i]? = some cells[i] := List.getElem?_eq_getElem (hlen ▸ hi)
    have hx : (cells.map some)[i]? = some (some cells[i]) := by
      rw [List.getElem?_map, hc]
      rfl
    rw [hc]
    simp only [indexConst, ge_iff_le, Nat.not_le.mpr hi, if_false]
    exact Store.load_of_some s hv hx
  · have hc : cells[i]? = none := List.getElem?_eq_none (by omega)
    rw [hc]
    simp only [indexConst, ge_iff_le, Nat.le_of_not_lt hi, if_true]
    rfl

/-- Storing through `operator[]` into an object whose array holds `cells`. -/
theorem indexStore_of_cells (s : Store T) (v : Object) (cells : List T)
    (hv : s[v.data]? = some (cells.map some)) (hlen : cells.length = v.size_)
    {i : Nat} (hi : i < v.size_) (x : T) :
    ∃ s1, indexStore s v i x = Except.ok s1 ∧ s1.length = s.length ∧
      (∀ q, q ≠ v.data → s1[q]? = s[q]?) ∧
      s1[v.data]? = some ((cells.set i x).map some) := by
  have hil : i < (cells.map some).length := by simp [hlen, hi]
  refine ⟨s.set v.data ((cells.map some).set i (some x)), ?_, ?_, ?_, ?_⟩
  · simp only [indexStore, ge_iff_le, Nat.not_le.mpr hi, if_false]
    exact Store.store_of_lt s hv hil x
  · rw [List.length_set]
  · intro q hq
    exact List.getElem?_set_ne (Ne.symm hq)
  · rw [List.getElem?_set_self (Store.lt_length_of_getElem? hv), List.map_set]

/-- The fill constructor allocates one array, holding `value` in each of its
`size` cells, and touches no other array. -/
theorem objectFill_spec (s : Store T) (size : Nat) (value : T) :
    ∃ s1, ctorFill s size value = Except.ok (s1, { size_ := size, data := s.length }) ∧
      s1.length = s.length + 1 ∧ (∀ q, q ≠ s.length → s1[q]? = s[q]?) ∧
      s1[s.length]? = some ((List.replicate size value).map some) := by
  obtain ⟨st, hst, hlen, hframe, hblk⟩ := Store.heapLoop_spec
    (s ++ [List.replicate size none]) s.length size (List.replicate size none)
    (List.getElem?_concat_length s _) (List.length_replicate size none)
    (List.replicate size value) (List.length_replicate size value)
    (fun i st => st.store s.length i value)
    (by
      intro i hi st blk _ _ _
      exact ⟨value, List.getElem?_replicate_of_lt hi, rfl⟩)
  refine ⟨st, ?_, by rw [hlen]; simp, ?_, hblk⟩
  · show (Vector.forLoop (fun i st => st.store s.length i value)
      (s ++ [List.replicate size none]) size >>= fun s2 =>
        pure (s2, ({ size_ := size, data := s.length } : Object))) = _
    rw [hst]
    rfl
  · intro q hq
    rw [hframe q hq]
    exact alloc_getElem?_ne s size q hq

/-- The copy constructor allocates one array, fills it with the cells of
`other`, and touches no other array. -/
theorem objectCopy_spec (s : Store T) (other : Object) (cells : List T)
    (hv : s[other.data]? = some (cells.map some)) (hlen : cells.length = other.size_) :
    ∃ s1, ctorCopy s other = Except.ok (s1, { size_ := other.size_, data := s.length }) ∧
      s1.length = s.length + 1 ∧ (∀ q, q ≠ s.length → s1[q]? = s[q]?) ∧
      s1[s.length]? = some (cells.map some) := by
  have hne : other.data ≠ s.length := Nat.ne_of_lt (Store.lt_length_of_getElem? hv)
  obtain ⟨st, hst, hslen, hframe, hblk⟩ := Store.heapLoop_spec
    (s ++ [List.replicate other.size_ none]) s.length other.size_
    (List.replicate other.size_ none)
    (List.getElem?_concat_length s _) (List.length_replicate other.size_ none)
    cells hlen
    (fun i st => do
      let x ← indexConst st other i
      st.store s.length i x)
    (by
      intro i hi st blk hfr _ _
      have hc : cells[i]? = some cells[i] := List.getElem?_eq_getElem (hlen ▸ hi)
      have hst : st[other.data]? = some (cells.map some) := by
        rw [hfr other.data hne, alloc_getElem?_ne s other.size_ other.data hne, hv]
      refine ⟨cells[i], hc, ?_⟩
      beta_reduce
      rw [indexConst_of_cells st other cells hst hlen i, hc]
      rfl)
  refine ⟨st, ?_, by rw [hslen]; simp, ?_, hblk⟩
  · show (Vector.forLoop (fun i st => do
        let x ← indexConst st other i
        st.store s.length i x)
      (s ++ [List.replicate other.size_ none]) other.size_ >>= fun s2 =>
        pure (s2, ({ size_ := other.size_, data := s.length } : Object))) = _
    rw [hst]
    rfl
  · intro q hq
    rw [hframe q hq]
    exact alloc_getElem?_ne s other.size_ q hq

/-- The assignment leaves the array of `self` holding the cells of `other`, and
every other array as it was; `other` may share its array with `self`. -/
theorem objectAssign_spec (s : Store T) (self other : Object) (mine theirs : List T)
    (hself : s[self.data]? = some (mine.map some)) (hmine : mine.length = self.size_)
    (hother : s[other.data]? = some (theirs.map some))
    (htheirs : theirs.length = other.size_) (hsize : self.size_ = other.size_) :
    ∃ s1, assign s self other = Except.ok s1 ∧ s1.length = s.length ∧
      (∀ q, q ≠ self.data → s1[q]? = s[q]?) ∧
      s1[self.data]? = some (theirs.map some) := by
  obtain ⟨st, hst, hslen, hframe, hblk⟩ := Store.heapLoop_spec
    s self.data self.size_ (mine.map some) hself (by simp [hmine])
    theirs (htheirs.trans hsize.symm)
    (fun i st => do
      let y ← indexConst st other i
      st.store self.data i y)
    (by
      intro i hi st blk hfr hblk hrest
      have hio : i < other.size_ := hsize ▸ hi
      have hc : theirs[i]? = some theirs[i] := List.getElem?_eq_getElem (htheirs ▸ hio)
      have hload : st.load other.data i = Except.ok theirs[i] := by
        by_cases halias : other.data = self.data
        · rw [halias]
          apply Store.load_of_some st hblk
          rw [hrest i (Nat.le_refl i)]
          have hsame : mine.map some = theirs.map some := by
            rw [halias, hself] at hother
            exact Option.some.inj hother
          rw [hsame, List.getElem?_map, hc]
          rfl
        · apply Store.load_of_some st ((hfr other.data halias).trans hother)
          rw [List.getElem?_map, hc]
          rfl
      refine ⟨theirs[i], hc, ?_⟩
      beta_reduce
      simp only [indexConst, ge_iff_le, Nat.not_le.mpr hio, if_false]
      rw [hload]
      rfl)
  refine ⟨st, ?_, hslen, hframe, hblk⟩
  simp only [assign, ne_eq, hsize, not_true_eq_false, if_false]
  rw [← hsize]
  exact hst

end Object

/-! ## The claims on copies, assignment and derived quantities -/

namespace Vector

variable {T : Type}

theorem copyCells_spec (other : Vector T) (n : Nat) (hn : n ≤ other.size_) :
    ∃ cells, copyCells other n = Except.ok cells ∧ cells.1 = other.data.take n := by
  induction n with
  | zero => exact ⟨⟨[], rfl⟩, rfl, by simp⟩
  | succ k ih =>
    obtain ⟨cells, hcells, htake⟩ := ih (by omega)
    have hk : k < other.data.length := by rw [other.alloc]; omega
    have hx := operatorIndexConst_of_some other (List.getElem?_eq_getElem hk)
    refine ⟨⟨cells.1 ++ [other.data[k]], by simp [cells.2]⟩, ?_, ?_⟩
    · rw [copyCells, hcells, hx]
      rfl
    · show cells.1 ++ [other.data[k]] = other.data.take (k + 1)
      rw [htake, List.take_succ, List.getElem?_eq_getElem hk]
      rfl

theorem copy_spec (other : Vector T) : copy other = Except.ok other := by
  obtain ⟨cells, hcells, htake⟩ := copyCells_spec other other.size_ (Nat.le_refl _)
  have hdata : cells.1 = other.data := by
    rw [htake, ← other.alloc, List.take_length]
  unfold copy
  rw [hcells]
  show Except.ok _ = Except.ok other
  congr 1
  cases other
  simp_all

/-- Claim C11: the copy constructor gives a vector of the same size with the
same element at every index, in an array of its own: storing into an element of
the copy leaves every element of the original as it was, and the other way round. -/
theorem copy_independent (u : Vector T) (s : Store T) (v : Object) (cells : List T)
    (hv : s[v.data]? = some (cells.map some)) (hlen : cells.length = v.size_) :
    (∃ w, u.copy = Except.ok w ∧ w.size_ = u.size_ ∧
      ∀ i, w.operatorIndexConst i = u.operatorIndexConst i) ∧
    ∃ s1 w, Object.ctorCopy s v = Except.ok (s1, w) ∧ w.size_ = v.size_ ∧ w.data ≠ v.data ∧
      (∀ i, Object.indexConst s1 w i = Object.indexConst s v i) ∧
      (∀ i, Object.indexConst s1 v i = Object.indexConst s v i) ∧
      (∀ i x, i < w.size_ → ∃ s2, Object.indexStore s1 w i x = Except.ok s2 ∧
        Object.indexConst s2 w i = Except.ok x ∧
        ∀ j, Object.indexConst s2 v j = Object.indexConst s v j) ∧
      (∀ i x, i < v.size_ → ∃ s2, Object.indexStore s1 v i x = Except.ok s2 ∧
        Object.indexConst s2 v i = Except.ok x ∧
        ∀ j, Object.indexConst s2 w j = Object.indexConst s v j) := by
  refine ⟨⟨u, copy_spec u, rfl, fun _ => rfl⟩, ?_⟩
  obtain ⟨s1, hcopy, _, hframe, hnew⟩ := Object.objectCopy_spec s v cells hv hlen
  have hne : v.data ≠ s.length := Nat.ne_of_lt (Store.lt_length_of_getElem? hv)
  have hv1 : s1[v.data]? = some (cells.map some) := (hframe v.data hne).trans hv
  have hread : ∀ (st : Store T) (o : Object), st[o.data]? = some (cells.map some) →
      o.size_ = v.size_ →
      ∀ i, Object.indexConst st o i = Object.indexConst s v i := by
    intro st o ho hsize i
    rw [Object.indexConst_of_cells st o cells ho (hlen.trans hsize.symm) i,
      Object.indexConst_of_cells s v cells hv hlen i]
  have hset : ∀ (i : Nat) (x : T), i < v.size_ → (cells.set i x)[i]? = some x := by
    intro i x hi
    exact List.getElem?_set_self (hlen ▸ hi)
  refine ⟨s1, { size_ := v.size_, data := s.length }, hcopy, rfl, Ne.symm hne,
    hread s1 _ hnew rfl, hread s1 v hv1 rfl, ?_, ?_⟩
  · intro i x hi
    obtain ⟨s2, hs2, _, hfr2, hblk2⟩ := Object.indexStore_of_cells s1
      { size_ := v.size_, data := s.length } cells hnew hlen hi x
    refine ⟨s2, hs2, ?_, hread s2 v ((hfr2 v.data hne).trans hv1) rfl⟩
    rw [Object.indexConst_of_cells s2 _ (cells.set i x) hblk2
      (by rw [List.length_set]; exact hlen) i, hset i x hi]
  · intro i x hi
    obtain ⟨s2, hs2, _, hfr2, hblk2⟩ := Object.indexStore_of_cells s1 v cells hv1 hlen hi x
    refine ⟨s2, hs2, ?_, hread s2 _ ((hfr2 s.length (Ne.symm hne)).trans hnew) rfl⟩
    rw [Object.indexConst_of_cells s2 v (cells.set i x) hblk2
      (by rw [List.length_set]; exact hlen) i, hset i x hi]

theorem copy_independent_witness :
    Object.ctorFill ([] : Store ℚ) 3 2 =
        Except.ok ([[some 2, some 2, some 2]], { size_ := 3, data := 0 }) ∧
      ∃ s1 w, Object.ctorCopy [[some (2 : ℚ), some 2, some 2]] { size_ := 3, data := 0 } =
          Except.ok (s1, w) ∧
        ∃ s2, Object.indexStore s1 w 0 7 = Except.ok s2 ∧
          Object.indexConst s2 w 0 = Except.ok 7 ∧
          Object.indexConst s2 { size_ := 3, data := 0 } 0 = Except.ok 2 := by
  refine ⟨rfl, ?_⟩
  obtain ⟨_, s1, w, hcopy, hsize, _, _, _, hw, _⟩ :=
    copy_independent (fill 3 (2 : ℚ)) [[some (2 : ℚ), some 2, some 2]]
      { size_ := 3, data := 0 } [2, 2, 2] rfl rfl
  obtain ⟨s2, hs2, hx, hframe⟩ := hw 0 7 (by rw [hsize]; decide)
  exact ⟨s1, w, hcopy, s2, hs2, hx, (hframe 0).trans rfl⟩

/-- Claim C12: for `a` and `other` of equal size the assignment succeeds; it
writes no member of `a` but the cells of its array, so the size of `a` stays,
and afterwards every element of `a` is the element of `other` at that index,
with `other` as it was.  Assigning `a` to itself leaves every element of `a`
as it was. -/
theorem assign_replaces (u w : Vector T) (s : Store T) (a other : Object)
    (mine theirs : List T)
    (husize : u.size_ = w.size_)
    (ha : s[a.data]? = some (mine.map some)) (hmine : mine.length = a.size_)
    (ho : s[other.data]? = some (theirs.map some)) (htheirs : theirs.length = other.size_)
    (hsize : a.size_ = other.size_) :
    (∃ r, u.operatorAssign w = Except.ok r ∧ r.size_ = u.size_ ∧
      ∀ i, r.operatorIndexConst i = w.operatorIndexConst i) ∧
    (∃ s1, Object.assign s a other = Except.ok s1 ∧
      (∀ i, Object.indexConst s1 a i = Object.indexConst s other i) ∧
      (∀ i, Object.indexConst s1 other i = Object.indexConst s other i)) ∧
    (∃ s1, Object.assign s a a = Except.ok s1 ∧
      ∀ i, Object.indexConst s1 a i = Object.indexConst s a i) := by
  refine ⟨?_, ?_, ?_⟩
  · obtain ⟨r, hr, hrsize, hrdata⟩ := operatorAssign_spec u w husize
    refine ⟨r, hr, hrsize, ?_⟩
    have hrw : r = w := by
      cases r
      cases w
      simp_all
    intro i
    rw [hrw]
  · obtain ⟨s1, hs1, _, hframe, hblk⟩ :=
      Object.objectAssign_spec s a other mine theirs ha hmine ho htheirs hsize
    have hother1 : s1[other.data]? = some (theirs.map some) := by
      by_cases halias : other.data = a.data
      · rw [halias]
        exact hblk
      · exact (hframe other.data halias).trans ho
    refine ⟨s1, hs1, ?_, ?_⟩
    · intro i
      rw [Object.indexConst_of_cells s1 a theirs hblk (htheirs.trans hsize.symm) i,
        Object.indexConst_of_cells s other theirs ho htheirs i]
    · intro i
      rw [Object.indexConst_of_cells s1 other theirs hother1 htheirs i,
        Object.indexConst_of_cells s other theirs ho htheirs i]
  · obtain ⟨s1, hs1, _, _, hblk⟩ :=
      Object.objectAssign_spec s a a mine mine ha hmine ha hmine rfl
    refine ⟨s1, hs1, ?_⟩
    intro i
    rw [Object.indexConst_of_cells s1 a mine hblk hmine i,
      Object.indexConst_of_cells s a mine ha hmine i]

theorem assign_replaces_witness :
    (∃ s1, Object.assign [[some (1 : ℤ), some 2], [some 3, some 4]]
        { size_ := 2, data := 0 } { size_ := 2, data := 1 } = Except.ok s1 ∧
      Object.indexConst s1 { size_ := 2, data := 0 } 1 = Except.ok 4 ∧
      Object.indexConst s1 { size_ := 2, data := 1 } 1 = Except.ok 4) ∧
    (∃ s1, Object.assign [[some (1 : ℤ), some 2], [some 3, some 4]]
        { size_ := 2, data := 0 } { size_ := 2, data := 0 } = Except.ok s1 ∧
      Object.indexConst s1 { size_ := 2, data := 0 } 1 = Except.ok 2) := by
  obtain ⟨_, ⟨s1, hs1, ha, ho⟩, ⟨s2, hs2, hself⟩⟩ :=
    assign_replaces (fill 2 (1 : ℤ)) (fill 2 3) [[some (1 : ℤ), some 2], [some 3, some 4]]
      { size_ := 2, data := 0 } { size_ := 2, data := 1 } [1, 2] [3, 4] rfl rfl rfl rfl rfl rfl
  exact ⟨⟨s1, hs1, (ha 1).trans rfl, (ho 1).trans rfl⟩, ⟨s2, hs2, (hself 1).trans rfl⟩⟩

theorem operatorDiv_spec [Zero T] [Div T] (a : Vector T) (k : T) :
    ∃ r, a.operatorDiv k = Except.ok r ∧ r.size_ = a.size_ ∧
      r.data = List.map (fun x => x / k) a.data :=
  mapLoop_spec (fun x => x / k) a

theorem operatorIndexConst_getD [Zero T] (v : Vector T) {i : Nat} (h : i < v.size_) :
    v.operatorIndexConst i = Except.ok (v.data.getD i 0) := by
  have hlt : i < v.data.length := by rw [v.alloc]; exact h
  apply operatorIndexConst_of_some
  rw [List.getD_eq_getElem?_getD, List.getElem?_eq_getElem hlt]
  rfl

/-- The sum of a list is the sum of its cells over their indices. -/
theorem list_sum_eq_sum_range [Ring T] (l : List T) :
    l.sum = ∑ i in Finset.range l.length, l.getD i 0 := by
  have key : ∀ k, k ≤ l.length →
      (l.take k).sum = ∑ i in Finset.range k, l.getD i 0 := by
    intro k
    induction k with
    | zero => intro _; simp
    | succ k ih =>
      intro hk
      have hlt : k < l.length := hk
      rw [List.sum_take_succ l k hlt, Finset.sum_range_succ, ih (Nat.le_of_lt hlt),
        List.getD_eq_getElem l 0 hlt]
  have h := key l.length (Nat.le_refl _)
  rwa [List.take_length] at h

theorem zipWith_mul_getD [Ring T] (l1 l2 : List T) (i : Nat) :
    (List.zipWith (fun x y => x * y) l1 l2).getD i 0 = l1.getD i 0 * l2.getD i 0 := by
  simp only [List.getD_eq_getElem?_getD, List.getElem?_zipWith]
  cases h1 : l1[i]? <;> cases h2 : l2[i]? <;> simp

theorem map_sq_getD [Ring T] (l : List T) (i : Nat) :
    (List.map (fun x => x * x) l).getD i 0 = l.getD i 0 * l.getD i 0 := by
  simp only [List.getD_eq_getElem?_getD, List.getElem?_map]
  cases h : l[i]? <;> simp

theorem dot_sum_range [Ring T] (a b : Vector T) (h : a.size_ = b.size_) :
    (List.zipWith (fun x y => x * y) a.data b.data).sum =
      ∑ i in Finset.range a.size_, a.data.getD i 0 * b.data.getD i 0 := by
  rw [list_sum_eq_sum_range]
  have hlen : (List.zipWith (fun x y => x * y) a.data b.data).length = a.size_ := by
    simp [a.alloc, b.alloc, h]
  rw [hlen]
  exact Finset.sum_congr rfl (fun i _ => zipWith_mul_getD a.data b.data i)

theorem sq_sum_range [Ring T] (a : Vector T) :
    (List.map (fun x => x * x) a.data).sum =
      ∑ i in Finset.range a.size_, a.data.getD i 0 * a.data.getD i 0 := by
  rw [list_sum_eq_sum_range]
  have hlen : (List.map (fun x => x * x) a.data).length = a.size_ := by
    simp [a.alloc]
  rw [hlen]
  exact Finset.sum_congr rfl (fun i _ => map_sq_getD a.data i)

/-- Claim C13: for `a` and `b` of equal size `n` the dot product returns the sum
over `i < n` of `a[i] * b[i]`, so `0` when `n = 0`. -/
theorem dot_eq_sum [Ring T] (a b : Vector T) (h : a.size_ = b.size_) :
    (∀ i, i < a.size_ → a.operatorIndexConst i = Except.ok (a.data.getD i 0) ∧
      b.operatorIndexConst i = Except.ok (b.data.getD i 0)) ∧
    a.operatorMulVector b =
      Except.ok (∑ i in Finset.range a.size_, a.data.getD i 0 * b.data.getD i 0) ∧
    (a.size_ = 0 → a.operatorMulVector b = Except.ok 0) := by
  have hdot : a.operatorMulVector b =
      Except.ok (∑ i in Finset.range a.size_, a.data.getD i 0 * b.data.getD i 0) := by
    rw [operatorMulVector_spec a b h, dot_sum_range a b h]
  refine ⟨fun i hi => ⟨operatorIndexConst_getD a hi, operatorIndexConst_getD b (h ▸ hi)⟩,
    hdot, ?_⟩
  intro h0
  rw [hdot, h0]
  simp

theorem dot_eq_sum_witness :
    (fill 2 (2 : ℤ)).size_ = (fill 2 (3 : ℤ)).size_ ∧
      (fill 2 (2 : ℤ)).operatorMulVector (fill 2 3) =
        Except.ok (∑ i in Finset.range (fill 2 (2 : ℤ)).size_,
          (fill 2 (2 : ℤ)).data.getD i 0 * (fill 2 (3 : ℤ)).data.getD i 0) ∧
      ((fill 0 (2 : ℤ)).size_ = 0 ∧
        (fill 0 (2 : ℤ)).operatorMulVector (fill 0 3) = Except.ok 0) :=
  ⟨rfl, (dot_eq_sum (fill 2 (2 : ℤ)) (fill 2 3) rfl).2.1,
    rfl, (dot_eq_sum (fill 0 (2 : ℤ)) (fill 0 3) rfl).2.2 rfl⟩

/-- Claim C14: for `a` and `b` of equal size `n` the sum and the difference are
vectors of size `n` holding `a[i] + b[i]` and `a[i] - b[i]`; for a scalar `k` the
product and the quotient are vectors of the size of `a` holding `a[i] * k` and
`a[i] / k`, the division being that of the scalar type. -/
theorem arithmetic_elementwise [Ring T] [Div T] (a b : Vector T) (k : T) :
    (a.size_ = b.size_ → ∃ sum diff, a.operatorPlus b = Except.ok sum ∧
      a.operatorMinus b = Except.ok diff ∧ sum.size_ = a.size_ ∧ diff.size_ = a.size_ ∧
      ∀ i, i < a.size_ → ∃ x y, a.operatorIndexConst i = Except.ok x ∧
        b.operatorIndexConst i = Except.ok y ∧
        sum.operatorIndexConst i = Except.ok (x + y) ∧
        diff.operatorIndexConst i = Except.ok (x - y)) ∧
    ∃ prod quot, a.operatorMulScalar k = Except.ok prod ∧
      a.operatorDiv k = Except.ok quot ∧ prod.size_ = a.size_ ∧ quot.size_ = a.size_ ∧
      ∀ i, i < a.size_ → ∃ x, a.operatorIndexConst i = Except.ok x ∧
        prod.operatorIndexConst i = Except.ok (x * k) ∧
        quot.operatorIndexConst i = Except.ok (x / k) := by
  constructor
  · intro h
    obtain ⟨sum, hsum, hssize, hsdata⟩ := operatorPlus_spec a b h
    obtain ⟨diff, hdiff, hdsize, hddata⟩ := operatorMinus_spec a b h
    refine ⟨sum, diff, hsum, hdiff, hssize, hdsize, ?_⟩
    intro i hi
    obtain ⟨x, hx⟩ := getElem?_of_lt a hi
    obtain ⟨y, hy⟩ := getElem?_of_lt b (h ▸ hi)
    refine ⟨x, y, operatorIndexConst_of_some a hx, operatorIndexConst_of_some b hy,
      operatorIndexConst_of_some sum ?_, operatorIndexConst_of_some diff ?_⟩
    · simp [hsdata, List.getElem?_zipWith, hx, hy]
    · simp [hddata, List.getElem?_zipWith, hx, hy]
  · obtain ⟨prod, hprod, hpsize, hpdata⟩ := operatorMulScalar_spec a k
    obtain ⟨quot, hquot, hqsize, hqdata⟩ := operatorDiv_spec a k
    refine ⟨prod, quot, hprod, hquot, hpsize, hqsize, ?_⟩
    intro i hi
    obtain ⟨x, hx⟩ := getElem?_of_lt a hi
    refine ⟨x, operatorIndexConst_of_some a hx,
      operatorIndexConst_of_some prod ?_, operatorIndexConst_of_some quot ?_⟩
    · simp [hpdata, List.getElem?_map, hx]
    · simp [hqdata, List.getElem?_map, hx]

theorem arithmetic_elementwise_witness :
    (fill 2 (6 : ℚ)).size_ = (fill 2 (2 : ℚ)).size_ ∧
      ∃ sum diff, (fill 2 (6 : ℚ)).operatorPlus (fill 2 2) = Except.ok sum ∧
        (fill 2 (6 : ℚ)).operatorMinus (fill 2 2) = Except.ok diff ∧
        sum.size_ = 2 ∧ diff.size_ = 2 ∧
        ∃ x y, (fill 2 (6 : ℚ)).operatorIndexConst 1 = Except.ok x ∧
          (fill 2 (2 : ℚ)).operatorIndexConst 1 = Except.ok y ∧
          sum.operatorIndexConst 1 = Except.ok (x + y) ∧
          diff.operatorIndexConst 1 = Except.ok (x - y) := by
  obtain ⟨sum, diff, hsum, hdiff, hs, hd, hall⟩ :=
    (arithmetic_elementwise (fill 2 (6 : ℚ)) (fill 2 2) 3).1 rfl
  exact ⟨rfl, sum, diff, hsum, hdiff, hs, hd, hall 1 (by decide)⟩

theorem sq_sum_nonneg [LinearOrderedRing T] (l : List T) :
    0 ≤ (List.map (fun x => x * x) l).sum := by
  induction l with
  | nil => simp
  | cons x xs ih =>
    simp only [List.map_cons, List.sum_cons]
    exact add_nonneg (mul_self_nonneg x) ih

theorem sq_sum_pos [LinearOrderedRing T] (l : List T) {x : T} (hx : x ∈ l) (hne : x ≠ 0) :
    0 < (List.map (fun x => x * x) l).sum := by
  induction l with
  | nil => cases hx
  | cons y ys ih =>
    simp only [List.map_cons, List.sum_cons]
    rcases List.mem_cons.mp hx with h | h
    · subst h
      exact add_pos_of_pos_of_nonneg (mul_self_pos.mpr hne) (sq_sum_nonneg ys)
    · exact add_pos_of_nonneg_of_pos (mul_self_nonneg y) (ih h)

theorem mem_data_of_operatorIndexConst (v : Vector T) {i : Nat} {x : T}
    (h : v.operatorIndexConst i = Except.ok x) : x ∈ v.data := by
  by_cases hi : i < v.size_
  · obtain ⟨y, hy⟩ := getElem?_of_lt v hi
    rw [operatorIndexConst_of_some v hy] at h
    cases h
    exact List.getElem?_mem hy
  · rw [operatorIndexConst_of_ge v (Nat.le_of_not_lt hi)] at h
    cases h

theorem dot_self_eq_sq_sum [Ring T] (a : Vector T) :
    a.operatorMulVector a = Except.ok (List.map (fun x => x * x) a.data).sum := by
  rw [operatorMulVector_spec a a rfl, List.zipWith_same]

/-- Claim C15: the norm of a real vector of size `n` is the square root of the sum
over `i < n` of `a[i] ^ 2`, which is the square root of the dot product of the
vector with itself; it is not negative, and it is `0` for the empty vector. -/
theorem length_eq_sqrt_sum (a : Vector ℝ) :
    (∀ i, i < a.size_ → a.operatorIndexConst i = Except.ok (a.data.getD i 0)) ∧
    a.length Real.sqrt =
      Except.ok (Real.sqrt (∑ i in Finset.range a.size_, a.data.getD i 0 ^ 2)) ∧
    (∃ d, a.operatorMulVector a = Except.ok d ∧
      a.length Real.sqrt = Except.ok (Real.sqrt d)) ∧
    (∃ l, a.length Real.sqrt = Except.ok l ∧ 0 ≤ l) ∧
    (a.size_ = 0 → a.length Real.sqrt = Except.ok 0) := by
  refine ⟨fun i hi => operatorIndexConst_getD a hi, ?_,
    ⟨_, dot_self_eq_sq_sum a, length_spec Real.sqrt a⟩,
    ⟨_, length_spec Real.sqrt a, Real.sqrt_nonneg _⟩, ?_⟩
  · rw [length_spec, sq_sum_range]
    simp only [sq]
  · intro h0
    have hnil : a.data = [] := List.length_eq_zero.mp (a.alloc.trans h0)
    rw [length_spec, hnil]
    simp

theorem length_eq_sqrt_sum_witness :
    ((1 : Nat) < (fill 2 (3 : ℝ)).size_ ∧
      (fill 2 (3 : ℝ)).operatorIndexConst 1 = Except.ok ((fill 2 (3 : ℝ)).data.getD 1 0)) ∧
    ((fill 0 (3 : ℝ)).size_ = 0 ∧ (fill 0 (3 : ℝ)).length Real.sqrt = Except.ok 0) :=
  ⟨⟨by decide, (length_eq_sqrt_sum (fill 2 (3 : ℝ))).1 1 (by decide)⟩,
    ⟨rfl, (length_eq_sqrt_sum (fill 0 (3 : ℝ))).2.2.2.2 rfl⟩⟩

/-- Claim C16: for real vectors `a` and `b` of equal size, `sinOfAngleWith` returns
`sqrt (1 - (d / (la * lb)) ^ 2)` and `areaTriangle` returns `0.5 * la * lb` times
that sine, where `d` is the dot product and `la`, `lb` are the two norms. -/
theorem sin_area_formula (a b : Vector ℝ) (h : a.size_ = b.size_) :
    ∃ d la lb sinAngle, a.operatorMulVector b = Except.ok d ∧
      a.length Real.sqrt = Except.ok la ∧ b.length Real.sqrt = Except.ok lb ∧
      a.sinOfAngleWith Real.sqrt b = Except.ok sinAngle ∧
      sinAngle = Real.sqrt (1 - (d / (la * lb)) ^ 2) ∧
      a.areaTriangle Real.sqrt b = Except.ok (0.5 * la * lb * sinAngle) :=
  ⟨_, _, _, _, operatorMulVector_spec a b h, length_spec Real.sqrt a,
    length_spec Real.sqrt b, sinOfAngleWith_spec Real.sqrt a b h, rfl,
    areaTriangle_spec Real.sqrt a b h⟩

theorem sin_area_formula_witness :
    (fill 2 (1 : ℝ)).size_ = (fill 2 (3 : ℝ)).size_ ∧
      ∃ d la lb sinAngle, (fill 2 (1 : ℝ)).operatorMulVector (fill 2 3) = Except.ok d ∧
        (fill 2 (1 : ℝ)).length Real.sqrt = Except.ok la ∧
        (fill 2 (3 : ℝ)).length Real.sqrt = Except.ok lb ∧
        (fill 2 (1 : ℝ)).sinOfAngleWith Real.sqrt (fill 2 3) = Except.ok sinAngle ∧
        sinAngle = Real.sqrt (1 - (d / (la * lb)) ^ 2) ∧
        (fill 2 (1 : ℝ)).areaTriangle Real.sqrt (fill 2 3) =
          Except.ok (0.5 * la * lb * sinAngle) :=
  ⟨rfl, sin_area_formula (fill 2 1) (fill 2 3) rfl⟩

theorem dot_scaled_sum [CommRing T] (l : List T) (k : T) :
    (List.zipWith (fun x y => x * y) l (List.map (fun x => x * k) l)).sum =
      (List.map (fun x => x * x) l).sum * k := by
  induction l with
  | nil => simp
  | cons x xs ih =>
    simp only [List.map_cons, List.zipWith_cons_cons, List.sum_cons, ih]
    ring

theorem sq_scaled_sum [CommRing T] (l : List T) (k : T) :
    (List.map (fun x => x * x) (List.map (fun x => x * k) l)).sum =
      (List.map (fun x => x * x) l).sum * k ^ 2 := by
  induction l with
  | nil => simp
  | cons x xs ih =>
    simp only [List.map_cons, List.sum_cons, ih]
    ring

theorem ratio_sq_eq (A B d : ℝ) (hA : 0 ≤ A) (hB : 0 ≤ B) :
    (d / (Real.sqrt A * Real.sqrt B)) ^ 2 = d ^ 2 / (A * B) := by
  rw [div_pow, mul_pow, Real.sq_sqrt hA, Real.sq_sqrt hB]

/-- Claim C17: over the reals, for a vector `a` with a non-zero element, a non-zero
scalar `k` and `b = a * k`, the squared ratio of the dot product to the product of
the norms is `1`, `sinOfAngleWith` returns `0` and `areaTriangle` returns `0`. -/
theorem parallel_sin_zero (a : Vector ℝ) (k : ℝ) (hk : k ≠ 0)
    (ha : ∃ i x, a.operatorIndexConst i = Except.ok x ∧ x ≠ 0) :
    ∃ b d la lb, a.operatorMulScalar k = Except.ok b ∧
      a.operatorMulVector b = Except.ok d ∧
      a.length Real.sqrt = Except.ok la ∧ b.length Real.sqrt = Except.ok lb ∧
      (d / (la * lb)) ^ 2 = 1 ∧
      a.sinOfAngleWith Real.sqrt b = Except.ok 0 ∧
      a.areaTriangle Real.sqrt b = Except.ok 0 := by
  obtain ⟨b, hb, hbsize, hbdata⟩ := operatorMulScalar_spec a k
  obtain ⟨i, x, hx, hxne⟩ := ha
  have hS : 0 < (List.map (fun x => x * x) a.data).sum :=
    sq_sum_pos a.data (mem_data_of_operatorIndexConst a hx) hxne
  have hk2 : 0 < k ^ 2 := by positivity
  have hratio : ((List.zipWith (fun x y => x * y) a.data b.data).sum /
      (Real.sqrt (List.map (fun x => x * x) a.data).sum *
        Real.sqrt (List.map (fun x => x * x) b.data).sum)) ^ 2 = 1 := by
    rw [hbdata, dot_scaled_sum, sq_scaled_sum,
      ratio_sq_eq _ _ _ hS.le (mul_nonneg hS.le hk2.le)]
    field_simp
    ring
  have hsin : a.sinOfAngleWith Real.sqrt b = Except.ok 0 := by
    rw [sinOfAngleWith_spec Real.sqrt a b hbsize.symm, hratio]
    simp
  refine ⟨b, _, _, _, hb, operatorMulVector_spec a b hbsize.symm, length_spec Real.sqrt a,
    length_spec Real.sqrt b, hratio, hsin, ?_⟩
  rw [areaTriangle_spec Real.sqrt a b hbsize.symm, hratio]
  simp

theorem parallel_sin_zero_witness :
    (3 : ℝ) ≠ 0 ∧
      (∃ i x, (fill 2 (1 : ℝ)).operatorIndexConst i = Except.ok x ∧ x ≠ 0) ∧
      ∃ b d la lb, (fill 2 (1 : ℝ)).operatorMulScalar 3 = Except.ok b ∧
        (fill 2 (1 : ℝ)).operatorMulVector b = Except.ok d ∧
        (fill 2 (1 : ℝ)).length Real.sqrt = Except.ok la ∧
        b.length Real.sqrt = Except.ok lb ∧
        (d / (la * lb)) ^ 2 = 1 ∧
        (fill 2 (1 : ℝ)).sinOfAngleWith Real.sqrt b = Except.ok 0 ∧
        (fill 2 (1 : ℝ)).areaTriangle Real.sqrt b = Except.ok 0 :=
  ⟨by norm_num, ⟨0, 1, rfl, one_ne_zero⟩,
    parallel_sin_zero (fill 2 1) 3 (by norm_num) ⟨0, 1, rfl, one_ne_zero⟩⟩

theorem operatorIndexConst_congr (v w : Vector T) (j : Nat) (hsize : w.size_ = v.size_)
    (hcell : w.data[j]? = v.data[j]?) :
    w.operatorIndexConst j = v.operatorIndexConst j := by
  simp only [operatorIndexConst, rawRead, hsize, hcell]

/-- Claim C18: storing `x` at an index `i` below the size gives a vector of the
same size whose element `i` is `x` and whose other elements are as before; no
store through `operator[]` changes the size. -/
theorem set_frame (v : Vector T) (i : Nat) (x : T) :
    (i < v.size_ → ∃ w, v.assignIndex i x = Except.ok w ∧ w.size_ = v.size_ ∧
      w.size = v.size ∧ w.operatorIndexConst i = Except.ok x ∧
      ∀ j, j ≠ i → w.operatorIndexConst j = v.operatorIndexConst j) ∧
    (∀ w, v.assignIndex i x = Except.ok w → w.size_ = v.size_) := by
  have hok : i < v.size_ → ∃ w, v.assignIndex i x = Except.ok w ∧ w.size_ = v.size_ ∧
      w.size = v.size ∧ w.operatorIndexConst i = Except.ok x ∧
      ∀ j, j ≠ i → w.operatorIndexConst j = v.operatorIndexConst j := by
    intro hi
    obtain ⟨w, hw, hsize, hdata⟩ := rawWrite_of_lt v hi x
    have hlt : i < v.data.length := by rw [v.alloc]; exact hi
    refine ⟨w, by rw [assignIndex_of_lt v hi, hw], hsize, hsize, ?_, ?_⟩
    · apply operatorIndexConst_of_some
      rw [hdata]
      exact List.getElem?_set_self hlt
    · intro j hj
      apply operatorIndexConst_congr v w j hsize
      rw [hdata]
      exact List.getElem?_set_ne (Ne.symm hj)
  refine ⟨hok, ?_⟩
  intro w hw
  by_cases hi : i < v.size_
  · obtain ⟨w1, hw1, hsize, _⟩ := hok hi
    rw [hw1] at hw
    cases hw
    exact hsize
  · rw [assignIndex_of_ge v (Nat.le_of_not_lt hi)] at hw
    cases hw

theorem set_frame_witness :
    (1 : Nat) < (fill 3 (2 : ℤ)).size_ ∧
      ∃ w, (fill 3 (2 : ℤ)).assignIndex 1 9 = Except.ok w ∧ w.size_ = (fill 3 (2 : ℤ)).size_ ∧
        w.size = (fill 3 (2 : ℤ)).size ∧ w.operatorIndexConst 1 = Except.ok 9 ∧
        ∀ j, j ≠ 1 → w.operatorIndexConst j = (fill 3 (2 : ℤ)).operatorIndexConst j :=
  ⟨by decide, (set_frame (fill 3 (2 : ℤ)) 1 9).1 (by decide)⟩

/-- The inequality of Cauchy and Schwarz on the cells of two vectors of equal size. -/
theorem dot_sq_le (a b : Vector ℝ) (h : a.size_ = b.size_) :
    (List.zipWith (fun x y => x * y) a.data b.data).sum ^ 2 ≤
      (List.map (fun x => x * x) a.data).sum * (List.map (fun x => x * x) b.data).sum := by
  rw [dot_sum_range a b h, sq_sum_range a, sq_sum_range b, ← h]
  have hcs := Finset.sum_mul_sq_le_sq_mul_sq (Finset.range a.size_)
    (fun i => a.data.getD i 0) (fun i => b.data.getD i 0)
  simpa only [sq] using hcs

theorem radicand_nonneg (A B d : ℝ) (hA : 0 < A) (hB : 0 < B) (hcs : d ^ 2 ≤ A * B) :
    0 ≤ 1 - (d / (Real.sqrt A * Real.sqrt B)) ^ 2 := by
  rw [ratio_sq_eq A B d hA.le hB.le]
  have hAB : 0 < A * B := mul_pos hA hB
  have : d ^ 2 / (A * B) ≤ 1 := (div_le_one hAB).mpr hcs
  linarith

theorem lagrange_real (A B d : ℝ) (hA : 0 < A) (hB : 0 < B) :
    Real.sqrt A * Real.sqrt B * Real.sqrt (1 - (d / (Real.sqrt A * Real.sqrt B)) ^ 2) =
      Real.sqrt (A * B - d ^ 2) := by
  have hAB : 0 < A * B := mul_pos hA hB
  rw [ratio_sq_eq A B d hA.le hB.le, ← Real.sqrt_mul hA.le, ← Real.sqrt_mul hAB.le]
  congr 1
  field_simp

/-- Claim C19: over the reals, for `a` and `b` of equal size, each with a non-zero
element, the product of the norms is positive and the radicand
`1 - (d / (la * lb)) ^ 2` of `sinOfAngleWith` is not negative, so the returned
value squares to the radicand and lies between `0` and `1`. -/
theorem sin_in_unit_interval (a b : Vector ℝ) (h : a.size_ = b.size_)
    (ha : ∃ i x, a.operatorIndexConst i = Except.ok x ∧ x ≠ 0)
    (hb : ∃ i x, b.operatorIndexConst i = Except.ok x ∧ x ≠ 0) :
    ∃ d la lb sinAngle, a.operatorMulVector b = Except.ok d ∧
      a.length Real.sqrt = Except.ok la ∧ b.length Real.sqrt = Except.ok lb ∧
      0 < la * lb ∧ 0 ≤ 1 - (d / (la * lb)) ^ 2 ∧
      a.sinOfAngleWith Real.sqrt b = Except.ok sinAngle ∧
      sinAngle ^ 2 = 1 - (d / (la * lb)) ^ 2 ∧ 0 ≤ sinAngle ∧ sinAngle ≤ 1 := by
  obtain ⟨i, x, hx, hxne⟩ := ha
  obtain ⟨j, y, hy, hyne⟩ := hb
  have hA : 0 < (List.map (fun x => x * x) a.data).sum :=
    sq_sum_pos a.data (mem_data_of_operatorIndexConst a hx) hxne
  have hB : 0 < (List.map (fun x => x * x) b.data).sum :=
    sq_sum_pos b.data (mem_data_of_operatorIndexConst b hy) hyne
  have hrad := radicand_nonneg _ _ _ hA hB (dot_sq_le a b h)
  refine ⟨_, _, _, _, operatorMulVector_spec a b h, length_spec Real.sqrt a,
    length_spec Real.sqrt b,
    mul_pos (Real.sqrt_pos.mpr hA) (Real.sqrt_pos.mpr hB), hrad,
    sinOfAngleWith_spec Real.sqrt a b h, Real.sq_sqrt hrad, Real.sqrt_nonneg _, ?_⟩
  rw [Real.sqrt_le_left zero_le_one, one_pow]
  exact sub_le_self 1 (sq_nonneg _)

theorem sin_in_unit_interval_witness :
    (fill 2 (1 : ℝ)).size_ = (fill 2 (3 : ℝ)).size_ ∧
      (∃ i x, (fill 2 (1 : ℝ)).operatorIndexConst i = Except.ok x ∧ x ≠ 0) ∧
      (∃ i x, (fill 2 (3 : ℝ)).operatorIndexConst i = Except.ok x ∧ x ≠ 0) ∧
      ∃ d la lb sinAngle, (fill 2 (1 : ℝ)).operatorMulVector (fill 2 3) = Except.ok d ∧
        (fill 2 (1 : ℝ)).length Real.sqrt = Except.ok la ∧
        (fill 2 (3 : ℝ)).length Real.sqrt = Except.ok lb ∧
        0 < la * lb ∧ 0 ≤ 1 - (d / (la * lb)) ^ 2 ∧
        (fill 2 (1 : ℝ)).sinOfAngleWith Real.sqrt (fill 2 3) = Except.ok sinAngle ∧
        sinAngle ^ 2 = 1 - (d / (la * lb)) ^ 2 ∧ 0 ≤ sinAngle ∧ sinAngle ≤ 1 :=
  ⟨rfl, ⟨0, 1, rfl, one_ne_zero⟩, ⟨0, 3, rfl, three_ne_zero⟩,
    sin_in_unit_interval (fill 2 1) (fill 2 3) rfl ⟨0, 1, rfl, one_ne_zero⟩
      ⟨0, 3, rfl, three_ne_zero⟩⟩

/-- Claim C20: over the reals, for `a` and `b` of equal size, each with a non-zero
element, `areaTriangle` returns `0.5 * sqrt (A * B - d ^ 2)`, where `A` and `B` are
the dot products of `a` and of `b` with themselves and `d` is the dot product of
`a` and `b`; the value is the same with `a` and `b` exchanged, and not negative. -/
theorem area_lagrange (a b : Vector ℝ) (h : a.size_ = b.size_)
    (ha : ∃ i x, a.operatorIndexConst i = Except.ok x ∧ x ≠ 0)
    (hb : ∃ i x, b.operatorIndexConst i = Except.ok x ∧ x ≠ 0) :
    ∃ A B d area, a.operatorMulVector a = Except.ok A ∧
      b.operatorMulVector b = Except.ok B ∧ a.operatorMulVector b = Except.ok d ∧
      a.areaTriangle Real.sqrt b = Except.ok area ∧
      area = 0.5 * Real.sqrt (A * B - d ^ 2) ∧
      b.areaTriangle Real.sqrt a = Except.ok area ∧ 0 ≤ area := by
  obtain ⟨i, x, hx, hxne⟩ := ha
  obtain ⟨j, y, hy, hyne⟩ := hb
  have hA : 0 < (List.map (fun x => x * x) a.data).sum :=
    sq_sum_pos a.data (mem_data_of_operatorIndexConst a hx) hxne
  have hB : 0 < (List.map (fun x => x * x) b.data).sum :=
    sq_sum_pos b.data (mem_data_of_operatorIndexConst b hy) hyne
  have hcomm : (List.zipWith (fun x y => x * y) b.data a.data).sum =
      (List.zipWith (fun x y => x * y) a.data b.data).sum := by
    rw [List.zipWith_comm]
    simp only [mul_comm]
  have hab : a.areaTriangle Real.sqrt b = Except.ok
      (0.5 * Real.sqrt ((List.map (fun x => x * x) a.data).sum *
        (List.map (fun x => x * x) b.data).sum -
          (List.zipWith (fun x y => x * y) a.data b.data).sum ^ 2)) := by
    rw [areaTriangle_spec Real.sqrt a b h, ← lagrange_real _ _ _ hA hB]
    congr 1
    ring
  have hba : b.areaTriangle Real.sqrt a = Except.ok
      (0.5 * Real.sqrt ((List.map (fun x => x * x) a.data).sum *
        (List.map (fun x => x * x) b.data).sum -
          (List.zipWith (fun x y => x * y) a.data b.data).sum ^ 2)) := by
    rw [areaTriangle_spec Real.sqrt b a h.symm, hcomm, ← lagrange_real _ _ _ hA hB,
      mul_comm (Real.sqrt (List.map (fun x => x * x) b.data).sum)
        (Real.sqrt (List.map (fun x => x * x) a.data).sum)]
    congr 1
    ring
  exact ⟨_, _, _, _, dot_self_eq_sq_sum a, dot_self_eq_sq_sum b,
    operatorMulVector_spec a b h, hab, rfl, hba,
    mul_nonneg (by norm_num) (Real.sqrt_nonneg _)⟩

theorem area_lagrange_witness :
    (fill 2 (1 : ℝ)).size_ = (fill 2 (3 : ℝ)).size_ ∧
      (∃ i x, (fill 2 (1 : ℝ)).operatorIndexConst i = Except.ok x ∧ x ≠ 0) ∧
      (∃ i x, (fill 2 (3 : ℝ)).operatorIndexConst i = Except.ok x ∧ x ≠ 0) ∧
      ∃ A B d area, (fill 2 (1 : ℝ)).operatorMulVector (fill 2 1) = Except.ok A ∧
        (fill 2 (3 : ℝ)).operatorMulVector (fill 2 3) = Except.ok B ∧
        (fill 2 (1 : ℝ)).operatorMulVector (fill 2 3) = Except.ok d ∧
        (fill 2 (1 : ℝ)).areaTriangle Real.sqrt (fill 2 3) = Except.ok area ∧
        area = 0.5 * Real.sqrt (A * B - d ^ 2) ∧
        (fill 2 (3 : ℝ)).areaTriangle Real.sqrt (fill 2 1) = Except.ok area ∧ 0 ≤ area :=
  ⟨rfl, ⟨0, 1, rfl, one_ne_zero⟩, ⟨0, 3, rfl, three_ne_zero⟩,
    area_lagrange (fill 2 1) (fill 2 3) rfl ⟨0, 1, rfl, one_ne_zero⟩
      ⟨0, 3, rfl, three_ne_zero⟩⟩

end Vector

end AISD
